import Mathlib

/-!
Verification of the nanoprep control/estimation core against its
natural-language specification.

The development shallowly embeds the relevant Python modules:

* `src/nanoprep/utilities/calculator.py` — the diameter estimator, over `ℝ`
  (the Python floats are modelled as real numbers; `math.sqrt` as
  `Real.sqrt`; every statement that raises — a failed `assert`, a
  `ZeroDivisionError` from `0.0 ** -1` or float division by zero, or a
  `ValueError` from `math.sqrt` of a negative — makes the embedded
  function return `none`).
* `src/nanoprep/helpers/pulse_2022_1.py` — the adaptive pulse scaling
  arithmetic, over `ℚ` (pure rational arithmetic, executable).
* `src/nanoprep/utilities/emitter.py` — the transient and sustained
  sample sinks; the `np.nan` default-argument sentinel ("field not
  supplied in this call") is modelled as `Option.none`, and the
  `x is not np.nan` identity test as `Option.isSome`.
* `src/nanoprep/utilities/timer.py`, `src/nanoprep/utilities/iv.py`,
  `src/nanoprep/helpers/pulse.py` and
  `src/nanoprep/helpers/pipette_offset_2022_0.py` — the polling loops,
  over `ℚ`, driven by an explicit environment: a `time.perf_counter`
  stream (`ticks`), a sourcemeter whose current reading is a function of
  the applied voltage and the read index, and the cancellation predicate
  as a function of how many times it has been consulted.  `while True`
  loops take a fuel argument; exhausting the fuel behaves like the
  loop's stop condition firing, so every modelled trace is a prefix of a
  real trace with enough clock ticks.
-/

namespace Calculator

noncomputable section

open Real

/-- Branch conductance used by `estimate_diameter`
(`calculator.py` lines 78-84): the measured channel conductance is
quadrupled for double-electrode geometries, doubled otherwise. -/
def branch_conductance (channel_conductance : ℝ) (double_electrode : Bool) : ℝ :=
  if double_electrode then 4 * channel_conductance else 2 * channel_conductance

/-- Error on the branch conductance (`calculator.py` lines 81, 84). -/
def error_branch (error_channel : ℝ) (double_electrode : Bool) : ℝ :=
  if double_electrode then error_channel / 4 else error_channel / 2

/-- Pore-only conductance isolated from the series combination
(`calculator.py` line 86): `((G ** -1) - (Gb ** -1)) ** -1`. -/
def pore_conductance (conductance branch : ℝ) : ℝ :=
  (conductance⁻¹ - branch⁻¹)⁻¹

/-- Error on the isolated pore conductance as the code computes it
(`calculator.py` lines 89-98).  Note the final division is by
`error_conductance⁻¹ - error_branch⁻¹` — the reciprocals of the two
ERRORS, not of the two conductances. -/
def error_pore (conductance error_conductance branch eb : ℝ) : ℝ :=
  pore_conductance conductance branch *
      Real.sqrt ((error_conductance / conductance ^ 2) ^ 2 + (eb / branch ^ 2) ^ 2) /
    (error_conductance⁻¹ - eb⁻¹)

/-- Modelled from the spec (claim C2): the first-order propagated error on
`Gp = (G⁻¹ - Gb⁻¹)⁻¹`, namely `Gp² · sqrt((δG/G²)² + (δGb/Gb²)²)` from the
partial derivatives `∂Gp/∂G = Gp²/G²` and `∂Gp/∂Gb = Gp²/Gb²`. -/
def spec_first_order_error_pore (conductance error_conductance branch eb : ℝ) : ℝ :=
  pore_conductance conductance branch ^ 2 *
    Real.sqrt ((error_conductance / conductance ^ 2) ^ 2 + (eb / branch ^ 2) ^ 2)

/-- The factor `K = sqrt(1 + 16·σ·L/(π·Gp))` (`calculator.py` lines 103-109). -/
def kvalue (sc el gp : ℝ) : ℝ :=
  Real.sqrt (1 + 16 * sc * el / (Real.pi * gp))

/-- The diameter `d = (Gp/(2σ))(1 + K)` (`calculator.py` line 111). -/
def diameter_value (sc el gp : ℝ) : ℝ :=
  gp / (2 * sc) * (1 + kvalue sc el gp)

/-- The propagated diameter error (`calculator.py` lines 113-131). -/
def error_diameter (sc esc el eel gp ep : ℝ) : ℝ :=
  Real.sqrt
    ((((1 + kvalue sc el gp) / (2 * sc) -
          4 * el / (Real.pi * gp * kvalue sc el gp)) ^ 2) * ep ^ 2 +
      ((4 * el / (Real.pi * sc * kvalue sc el gp) -
          gp / (2 * sc ^ 2) * (1 + kvalue sc el gp)) ^ 2) * esc ^ 2 +
      (4 / (Real.pi * kvalue sc el gp)) ^ 2 * eel ^ 2)

open Classical in
/-- Final stage of `estimate_diameter` (`calculator.py` lines 103-133)
given the pore conductance and its error: `none` models the `ValueError`
raised by `math.sqrt` when `1 + 16σL/(π·Gp) < 0`, and the
`ZeroDivisionError` in the error formula when that argument is zero
(`K = 0`). -/
def diameter_result (sc esc el eel gp ep : ℝ) : Option (ℝ × ℝ) :=
  if 0 < 1 + 16 * sc * el / (Real.pi * gp) then
    some (diameter_value sc el gp, error_diameter sc esc el eel gp ep)
  else none

open Classical in
/-- `estimate_diameter` (`calculator.py` lines 41-133) over the reals.
`none` models a raised exception: a failed `assert` on σ, L or G; the
`ZeroDivisionError` from `(G⁻¹ - Gb⁻¹) ** -1` when `G = Gb`; the
`ZeroDivisionError`s in the error-pore formula when an error is zero or
the reciprocals of the two errors coincide; or the failures inside
`diameter_result`. -/
def estimate_diameter (sc esc el eel conductance ec channel ech : ℝ)
    (double_electrode : Bool) : Option (ℝ × ℝ) :=
  if 0 < sc ∧ 0 < el ∧ 0 < conductance then
    if 0 < channel then
      if conductance⁻¹ - (branch_conductance channel double_electrode)⁻¹ = 0 then none
      else if ec = 0 ∨ error_branch ech double_electrode = 0 ∨
          ec⁻¹ - (error_branch ech double_electrode)⁻¹ = 0 then none
      else
        diameter_result sc esc el eel
          (pore_conductance conductance (branch_conductance channel double_electrode))
          (error_pore conductance ec (branch_conductance channel double_electrode)
            (error_branch ech double_electrode))
    else diameter_result sc esc el eel conductance ec
  else none

/-- Modelled from the spec (claim C1): the pore-only diameter formula
`d = (G/(2σ))·(1 + sqrt(1 + 16σL/(πG)))`. -/
def spec_pore_only_diameter (sc el conductance : ℝ) : ℝ :=
  conductance / (2 * sc) * (1 + Real.sqrt (1 + 16 * sc * el / (Real.pi * conductance)))

end

end Calculator

/-- C1 counterexample: at σ = 1, L = 1, G = 2, Gc = 1/2 (all errors 1, single
electrode) — parameters allowed by the claim (σ, L, G > 0, Gc ≥ 0,
errors ≥ 0) — `estimate_diameter` raises (`math.sqrt` of
`1 - 8/π < 0`) instead of returning a positive diameter: the embedded
function yields `none`. -/
theorem estimate_diameter_claim_counterexample :
    Calculator.estimate_diameter 1 1 1 1 2 1 (1 / 2) 1 false = none := by
  have hπ := Real.pi_pos
  have h4 := Real.pi_le_four
  have hpc : Calculator.pore_conductance (2 : ℝ) (Calculator.branch_conductance (1 / 2) false)
      = -2 := by
    simp only [Calculator.pore_conductance, Calculator.branch_conductance, Bool.false_eq_true,
      if_neg]
    norm_num
  have harg : ¬ (0 < 1 + 16 * (1 : ℝ) * 1 /
      (Real.pi * Calculator.pore_conductance 2 (Calculator.branch_conductance (1 / 2) false))) := by
    rw [hpc]
    have hne : Real.pi * (-2 : ℝ) ≠ 0 := by nlinarith
    have hmul : 16 * (1 : ℝ) * 1 / (Real.pi * (-2)) * (Real.pi * (-2)) = 16 * 1 * 1 :=
      div_mul_cancel₀ _ hne
    nlinarith [hmul, hπ, h4]
  simp only [Calculator.estimate_diameter, Calculator.diameter_result]
  rw [if_pos (by norm_num), if_pos (by norm_num), if_neg, if_neg, if_neg harg]
  · simp only [Calculator.error_branch, Bool.false_eq_true, if_neg]
    norm_num
  · simp only [Calculator.branch_conductance, Bool.false_eq_true, if_neg]
    norm_num

/-- C1 (amended): `estimate_diameter` returns a positive diameter — equal to
the pore-only formula when `Gc = 0` — provided that, in addition to
σ, L, G > 0, either `Gc = 0`, or `Gc > 0` together with
`G < Gbranch` (so the series isolation yields a positive pore
conductance) and error parameters that keep the error-propagation step
defined (`eG > 0`, `ec > 0`, `eG ≠ ebranch`). -/
theorem estimate_diameter_pos (sc esc el eel conductance ec channel ech : ℝ)
    (double_electrode : Bool) (hsc : 0 < sc) (hel : 0 < el) (hg : 0 < conductance)
    (hch : channel = 0 ∨
      (0 < channel ∧ conductance < Calculator.branch_conductance channel double_electrode ∧
        0 < ec ∧ 0 < ech ∧ ec ≠ Calculator.error_branch ech double_electrode)) :
    ∃ d e, Calculator.estimate_diameter sc esc el eel conductance ec channel ech
        double_electrode = some (d, e) ∧ 0 < d ∧
      (channel = 0 → d = Calculator.spec_pore_only_diameter sc el conductance) := by
  have hπ := Real.pi_pos
  rcases hch with hch | ⟨hch, hlt, hec, hech, hne⟩
  · have hargpos : 0 < 1 + 16 * sc * el / (Real.pi * conductance) := by positivity
    refine ⟨Calculator.diameter_value sc el conductance,
      Calculator.error_diameter sc esc el eel conductance ec, ?_, ?_, ?_⟩
    · simp only [Calculator.estimate_diameter, Calculator.diameter_result, hch]
      rw [if_pos ⟨hsc, hel, hg⟩, if_neg (lt_irrefl 0), if_pos hargpos]
    · have hk : 0 ≤ Calculator.kvalue sc el conductance := Real.sqrt_nonneg _
      have : 0 < conductance / (2 * sc) := by positivity
      simp only [Calculator.diameter_value]
      nlinarith
    · intro _
      rfl
  · have hgb : 0 < Calculator.branch_conductance channel double_electrode := by
      simp only [Calculator.branch_conductance]
      cases double_electrode <;> simp <;> linarith
    have heb : 0 < Calculator.error_branch ech double_electrode := by
      simp only [Calculator.error_branch]
      cases double_electrode <;> simp <;> linarith
    have hsub : 0 < conductance⁻¹ - (Calculator.branch_conductance channel double_electrode)⁻¹ :=
      sub_pos.mpr ((inv_lt_inv₀ hgb hg).mpr hlt)
    have hpc : 0 < Calculator.pore_conductance conductance
        (Calculator.branch_conductance channel double_electrode) := by
      simp only [Calculator.pore_conductance]
      positivity
    have hargpos : 0 < 1 + 16 * sc * el /
        (Real.pi * Calculator.pore_conductance conductance
          (Calculator.branch_conductance channel double_electrode)) := by positivity
    have herr : ¬ (ec = 0 ∨ Calculator.error_branch ech double_electrode = 0 ∨
        ec⁻¹ - (Calculator.error_branch ech double_electrode)⁻¹ = 0) := by
      push_neg
      exact ⟨ne_of_gt hec, ne_of_gt heb, sub_ne_zero.mpr fun h => hne (inv_injective h)⟩
    refine ⟨Calculator.diameter_value sc el
        (Calculator.pore_conductance conductance
          (Calculator.branch_conductance channel double_electrode)),
      Calculator.error_diameter sc esc el eel
        (Calculator.pore_conductance conductance
          (Calculator.branch_conductance channel double_electrode))
        (Calculator.error_pore conductance ec
          (Calculator.branch_conductance channel double_electrode)
          (Calculator.error_branch ech double_electrode)), ?_, ?_, ?_⟩
    · simp only [Calculator.estimate_diameter, Calculator.diameter_result]
      rw [if_pos ⟨hsc, hel, hg⟩, if_pos hch, if_neg (ne_of_gt hsub), if_neg herr,
        if_pos hargpos]
    · have hk : 0 ≤ Calculator.kvalue sc el
          (Calculator.pore_conductance conductance
            (Calculator.branch_conductance channel double_electrode)) := Real.sqrt_nonneg _
      have : 0 < Calculator.pore_conductance conductance
          (Calculator.branch_conductance channel double_electrode) / (2 * sc) := by positivity
      simp only [Calculator.diameter_value]
      nlinarith
    · intro h
      exact absurd h (ne_of_gt hch)

/-- C1 witness: the amended theorem applied at σ = 1, L = 1, G = 1,
Gc = 0, all errors 0. -/
theorem estimate_diameter_pos_witness :
    ∃ d e, Calculator.estimate_diameter 1 0 1 0 1 0 0 0 false = some (d, e) ∧ 0 < d ∧
      ((0 : ℝ) = 0 → d = Calculator.spec_pore_only_diameter 1 1 1) :=
  estimate_diameter_pos 1 0 1 0 1 0 0 0 false (by norm_num) (by norm_num) (by norm_num)
    (Or.inl rfl)

/-- C2: at G = 1, δG = 1/100, Gbranch = 2, δGbranch = 1/200 the code's
`error_pore` is negative (it divides by `δG⁻¹ - δGbranch⁻¹ = -100`),
while the first-order propagated error on `Gp` claimed by the spec is
positive — so the code does not compute the claimed propagation.  (The
repository's own caller `iv.py` passes `error_conductance = 1e-4` and
`error_channel = 1e-4`, hitting exactly this negative-denominator
regime.) -/
theorem error_pore_not_first_order :
    Calculator.error_pore 1 (1 / 100) 2 (1 / 200) < 0 ∧
      0 < Calculator.spec_first_order_error_pore 1 (1 / 100) 2 (1 / 200) := by
  have hpc : Calculator.pore_conductance (1 : ℝ) 2 = 2 := by
    simp only [Calculator.pore_conductance]
    norm_num
  have hs : 0 < Real.sqrt (((1 : ℝ) / 100 / 1 ^ 2) ^ 2 + (1 / 200 / 2 ^ 2) ^ 2) :=
    Real.sqrt_pos.mpr (by positivity)
  constructor
  · simp only [Calculator.error_pore, hpc]
    have hd : (1 / 100 : ℝ)⁻¹ - (1 / 200 : ℝ)⁻¹ = -100 := by norm_num
    rw [hd]
    exact div_neg_of_pos_of_neg (by positivity) (by norm_num)
  · simp only [Calculator.spec_first_order_error_pore, hpc]
    positivity

namespace Pulse

/-- Progress-scaled voltage of `adaptive_amplitude_square_pulse`
(`pulse_2022_1.py` lines 79-80): `progress = (current - initial)/(target - initial)`,
`adaptive_voltage = (1 - progress) * (pulse_voltage + pipette_offset)`. -/
def adaptive_voltage (initial_size current_size target_size pulse_voltage pipette_offset : ℚ) : ℚ :=
  (1 - (current_size - initial_size) / (target_size - initial_size)) * (pulse_voltage + pipette_offset)

/-- Voltage actually written to the sourcemeter by
`adaptive_amplitude_square_pulse` (`pulse_2022_1.py` lines 81-84): if
`|adaptive_voltage| < |min_voltage|` the configured `min_voltage` itself is
applied (with its own sign), otherwise the scaled voltage is applied. -/
def applied_voltage (initial_size current_size target_size pulse_voltage pipette_offset min_voltage : ℚ) : ℚ :=
  let av := adaptive_voltage initial_size current_size target_size pulse_voltage pipette_offset
  if |av| < |min_voltage| then min_voltage else av

/-- Progress-scaled duration of `adaptive_period_square_pulse`
(`pulse_2022_1.py` lines 125-126): note the code computes
`progress = current_size / (target_size - initial_size)`, without
subtracting `initial_size` in the numerator. -/
def adaptive_period_time (initial_size current_size target_size pulse_time : ℚ) : ℚ :=
  (1 - current_size / (target_size - initial_size)) * pulse_time

/-- Progress-scaled duration of `adaptive_square_pulse`
(`pulse_2022_1.py` lines 169-170), which uses the relative progress
`(current_size - initial_size)/(target_size - initial_size)`. -/
def adaptive_square_time (initial_size current_size target_size pulse_time : ℚ) : ℚ :=
  (1 - (current_size - initial_size) / (target_size - initial_size)) * pulse_time

/-- Modelled from the spec: the duration scaling claimed for
`adaptive_period_pulse`, `(1 - progress) * pulse_time` with
`progress = (current_size - initial_size)/(target_size - initial_size)`. -/
def spec_adaptive_period_time (initial_size current_size target_size pulse_time : ℚ) : ℚ :=
  (1 - (current_size - initial_size) / (target_size - initial_size)) * pulse_time

/-- Effective pulse duration of the adaptive-period loop
(`pulse_2022_1.py` line 142): the loop breaks once
`lap_time > adaptive_time and lap_time > min_time`, i.e. it keeps running
exactly while `lap_time ≤ max adaptive_time min_time`. -/
def effective_duration (adaptive_time min_time : ℚ) : ℚ :=
  max adaptive_time min_time

end Pulse

/-- C5 counterexample: with `initial = 0`, `target = 20`, `current = 40`
(so `current ≥ target`), `pulse_voltage = 8`, `pipette_offset = 0`,
`min_voltage = 3`, the pulse applies `-8` V: a voltage whose magnitude
exceeds the configured minimum and whose sign is opposite to the
requested voltage. -/
theorem adaptive_amplitude_claim_counterexample :
    Pulse.applied_voltage 0 40 20 8 0 3 = -8 ∧
      ¬ |Pulse.applied_voltage 0 40 20 8 0 3| ≤ |(3 : ℚ)| ∧
      Pulse.applied_voltage 0 40 20 8 0 3 < 0 := by
  have h : Pulse.applied_voltage 0 40 20 8 0 3 = -8 := by
    have hav : Pulse.adaptive_voltage 0 40 20 8 0 = -8 := by
      norm_num [Pulse.adaptive_voltage]
    simp only [Pulse.applied_voltage, hav]
    norm_num
  refine ⟨h, ?_, ?_⟩ <;> rw [h] <;> norm_num

/-- C5 (amended): under the precondition `target > initial`,
`adaptive_amplitude_square_pulse` scales the offset-adjusted requested
voltage `pulse_voltage + pipette_offset` by `(1 - progress)`; at
`initial = 0`, `target = 20`, `current = 10`, offset 0, the scale factor
is exactly 1/2; the magnitude of the applied voltage is never below the
configured minimum's magnitude; and at `current = target` the configured
minimum voltage itself is applied (with its own sign — the sign of the
scaled voltage is not preserved by the clamp, and for `current` far
enough past `target` the unclamped, sign-reversed scaled voltage is
applied). -/
theorem adaptive_amplitude_amended (initial_size current_size target_size v off minV : ℚ)
    (h : initial_size < target_size) :
    Pulse.adaptive_voltage 0 10 20 v 0 = v / 2 ∧
      |minV| ≤ |Pulse.applied_voltage initial_size current_size target_size v off minV| ∧
      (current_size = target_size →
        Pulse.applied_voltage initial_size current_size target_size v off minV = minV) := by
  refine ⟨by rw [Pulse.adaptive_voltage]; ring, ?_, ?_⟩
  · rw [Pulse.applied_voltage]
    split
    · exact le_refl _
    · next hc => exact le_of_not_lt hc
  · intro hct
    have hne : target_size - initial_size ≠ 0 := by
      intro hz
      rw [sub_eq_zero] at hz
      exact absurd hz (ne_of_gt h)
    have hav : Pulse.adaptive_voltage initial_size current_size target_size v off = 0 := by
      rw [Pulse.adaptive_voltage, hct, div_self hne]
      ring
    rw [Pulse.applied_voltage, hav]
    rcases eq_or_ne minV 0 with hm | hm
    · simp [hm]
    · rw [if_pos]
      simpa using hm

/-- C5 witness: the amended theorem applied at
`initial = 0`, `current = 20`, `target = 20`, `v = 8`, `off = 0`,
`minV = 3`. -/
theorem adaptive_amplitude_amended_witness :
    Pulse.adaptive_voltage 0 10 20 8 0 = 8 / 2 ∧
      |(3 : ℚ)| ≤ |Pulse.applied_voltage 0 20 20 8 0 3| ∧
      ((20 : ℚ) = 20 → Pulse.applied_voltage 0 20 20 8 0 3 = 3) :=
  adaptive_amplitude_amended 0 20 20 8 0 3 (by norm_num)

/-- C6 (code bug): `adaptive_period_square_pulse` computes
`progress = current_size / (target_size - initial_size)` instead of the
relative progress `(current_size - initial_size)/(target_size - initial_size)`
used by its siblings `adaptive_amplitude_square_pulse` and
`adaptive_square_pulse` in the same file.  At `initial = 10`,
`current = 10`, `target = 20`, `pulse_time = 1/2`, `min_time = 1/5` the
code's scaled duration is 0 — so the pulse lasts only the minimum 1/5 s —
while zero progress has been made and both the spec formula and the
sibling `adaptive_square_pulse` give the full 1/2 s. -/
theorem adaptive_period_progress_bug :
    Pulse.adaptive_period_time 10 10 20 (1 / 2) = 0 ∧
      Pulse.spec_adaptive_period_time 10 10 20 (1 / 2) = 1 / 2 ∧
      Pulse.adaptive_square_time 10 10 20 (1 / 2) = 1 / 2 ∧
      Pulse.effective_duration (Pulse.adaptive_period_time 10 10 20 (1 / 2)) (1 / 5) = 1 / 5 ∧
      Pulse.effective_duration (Pulse.spec_adaptive_period_time 10 10 20 (1 / 2)) (1 / 5)
        = 1 / 2 := by
  norm_num [Pulse.adaptive_period_time, Pulse.spec_adaptive_period_time,
    Pulse.adaptive_square_time, Pulse.effective_duration]

namespace Emitter

/-- Arguments of one `record(...)` call: `none` models the `np.nan`
default, i.e. "this field was not supplied in this call". -/
structure RecordArgs where
  time : Option ℚ := none
  voltage : Option ℚ := none
  current : Option ℚ := none
  estimated_diameter : Option ℚ := none
  state : Option ℚ := none
deriving DecidableEq

/-- One emitted data row (`emitter.py` lines 24-32 and 88-96); `none` is an
emitted `np.nan`, i.e. an unset field. -/
structure Row where
  time : Option ℚ
  voltage : Option ℚ
  current : Option ℚ
  estimated_diameter : Option ℚ
  state : Option ℚ
deriving DecidableEq

/-- `Emitter.record` (the transient sink, `emitter.py` lines 16-32): each
field of the emitted row is exactly the supplied argument, with the
`np.nan` default for fields not supplied. -/
def record (p : RecordArgs) : Row :=
  ⟨p.time, p.voltage, p.current, p.estimated_diameter, p.state⟩

/-- Internal last-known-value store of `SustainedEmitter`
(`emitter.py` lines 56-60), initialised to `np.nan` per field. -/
structure SustainedState where
  time : Option ℚ
  voltage : Option ℚ
  current : Option ℚ
  estimated_diameter : Option ℚ
  state : Option ℚ
deriving DecidableEq

/-- Fresh `SustainedEmitter` state: every field `np.nan`. -/
def SustainedState.init : SustainedState := ⟨none, none, none, none, none⟩

/-- The per-field update of `SustainedEmitter.record`
(`emitter.py` lines 77-86): `if x is not np.nan: self.x = x`. -/
def updateField (old new : Option ℚ) : Option ℚ :=
  if new.isSome then new else old

/-- `SustainedEmitter.record` (`emitter.py` lines 68-96): store every
supplied field, then emit the full internal store. -/
def SustainedState.record (s : SustainedState) (p : RecordArgs) : SustainedState × Row :=
  let s' : SustainedState :=
    ⟨updateField s.time p.time, updateField s.voltage p.voltage,
     updateField s.current p.current,
     updateField s.estimated_diameter p.estimated_diameter,
     updateField s.state p.state⟩
  (s', ⟨s'.time, s'.voltage, s'.current, s'.estimated_diameter, s'.state⟩)

end Emitter

namespace Run

/-- One emitted sample of a polling loop.  `tag` is the `state` argument
of `emitter.record` (`none` models the `np.nan` default).  The in-loop
records of `iv_curve` and `square_pulse` carry no diameter, and the
diameter value of `iv_curve`'s final reporting record is a real number
computed downstream by `Calculator.estimate_diameter`, so the sample type
used for the trace theorems omits that field. -/
structure Sample where
  time : ℚ
  voltage : ℚ
  current : ℚ
  tag : Option ℚ
deriving DecidableEq

/-- Environment of a run: the `time.perf_counter` stream consumed reading
by reading, the sourcemeter's current as a function of the applied source
voltage and of the read index, and the cancellation predicate
`should_stop` as a function of how many times it has been consulted. -/
structure Env where
  ticks : ℕ → ℚ
  dev : ℚ → ℕ → ℚ
  stop : ℕ → Bool

/-- Mutable state threaded through a run: the perf-counter cursor, the
device read counter, the cancellation-check counter, the `Timer.laps`
list (`timer.py` line 20, appended at the end as in Python), and the
currently applied source voltage. -/
structure St where
  tick : ℕ
  rd : ℕ
  ab : ℕ
  laps : List ℚ
  sv : ℚ
deriving DecidableEq

/-- Consume one `time.perf_counter()` reading. -/
def perf (e : Env) (s : St) : ℚ × St :=
  (e.ticks s.tick, { s with tick := s.tick + 1 })

/-- `Timer.start` (`timer.py` lines 28-33): append a reference point. -/
def timerStart (e : Env) (s : St) : St :=
  let (t, s') := perf e s
  { s' with laps := s'.laps ++ [t] }

/-- `Timer.lap` (`timer.py` lines 43-48): append a lap and report
`(lap_time, total_time)` measured against `laps[-1]` and `laps[0]`. -/
def timerLap (e : Env) (s : St) : ℚ × ℚ × St :=
  let (t, s') := perf e s
  (t - s.laps.getLastD 0, t - s.laps.headD 0, { s' with laps := s'.laps ++ [t] })

/-- `Timer.check` (`timer.py` lines 69-75): report
`(lap_time, total_time)` without appending. -/
def timerCheck (e : Env) (s : St) : ℚ × ℚ × St :=
  let (t, s') := perf e s
  (t - s.laps.getLastD 0, t - s.laps.headD 0, s')

/-- `Timer.running` (`timer.py` lines 35-37). -/
def running (s : St) : Bool := !s.laps.isEmpty

/-- One `sourcemeter.current` read. -/
def readCurrent (e : Env) (s : St) : ℚ × St :=
  (e.dev s.sv s.rd, { s with rd := s.rd + 1 })

/-- One `aborter.should_abort()` call (`aborter.py` lines 14-19): evaluate
the predicate once and advance the call counter. -/
def checkStop (e : Env) (s : St) : Bool × St :=
  (e.stop s.ab, { s with ab := s.ab + 1 })

/-- Trace of one voltage step of `iv_curve`'s inner `while True` loop:
the retained `current_array`, the emitted samples, the in-step elapsed
time and current of each record call, and the cancellation-check
results. -/
structure StepTrace where
  arr : List ℚ
  recs : List Sample
  recLaps : List (ℚ × ℚ)
  stops : List Bool
deriving DecidableEq

/-- Empty step trace. -/
def StepTrace.nil : StepTrace := ⟨[], [], [], []⟩

/-- Inner `while True` loop of `iv_curve` (`iv.py` lines 80-102), with
fuel: per iteration it reads the clock (`timer.check`), breaks when
`lap_time > sweep_duration`, otherwise reads the current once, retains it
in `current_array` when `sweep_discard < lap_time ≤ sweep_duration`,
emits a record whose time is `start_time + lap_time` when stacked and
`total_time` otherwise, then polls cancellation and breaks on true.
Exhausted fuel behaves like the duration break. -/
def ivInner (e : Env) (dur disc startTime v : ℚ) (stacked : Bool) (tag : Option ℚ) :
    ℕ → St → St × StepTrace
  | 0, s => (s, .nil)
  | fuel + 1, s =>
    let (lap, total, s1) := timerCheck e s
    if dur < lap then (s1, .nil)
    else
      let (c, s2) := readCurrent e s1
      let sample : Sample := ⟨if stacked then startTime + lap else total, v, c, tag⟩
      let (b, s3) := checkStop e s2
      if b then
        (s3, ⟨if disc < lap ∧ lap ≤ dur then [c] else [], [sample], [(lap, c)], [b]⟩)
      else
        let (s', t) := ivInner e dur disc startTime v stacked tag fuel s3
        (s', ⟨(if disc < lap ∧ lap ≤ dur then [c] else []) ++ t.arr, sample :: t.recs,
          (lap, c) :: t.recLaps, b :: t.stops⟩)

/-- `np.mean` of the retained list: `none` models the `nan` produced by
an empty list. -/
def mean (l : List ℚ) : Option ℚ :=
  if l = [] then none else some (l.sum / l.length)

/-- Trace of `iv_curve`'s outer `for` loop: the assigned `iv_voltage` and
`iv_current` prefixes, all emitted samples and cancellation checks. -/
structure IVTrace where
  volts : List ℚ
  means : List (Option ℚ)
  recs : List Sample
  stops : List Bool
deriving DecidableEq

/-- Empty outer trace. -/
def IVTrace.nil : IVTrace := ⟨[], [], [], []⟩

/-- Outer `for` loop of `iv_curve` (`iv.py` lines 69-106): per step it
laps the timer, polls cancellation (breaking the `for` on true), applies
`voltage + pipette_offset`, runs the inner loop, then stores the step's
voltage and the mean of its retained currents.  A cancellation that
breaks only the inner loop does not break the `for`.  The returned flag
records whether the `for` was broken early. -/
def ivOuter (e : Env) (offset dur disc startTime : ℚ) (stacked : Bool) (tag : Option ℚ)
    (fuel : ℕ) : List ℚ → St → St × IVTrace × Bool
  | [], s => (s, .nil, false)
  | v :: rest, s =>
    let s1 := (timerLap e s).2.2
    let (b, s2) := checkStop e s1
    if b then (s2, ⟨[], [], [], [b]⟩, true)
    else
      let s3 := { s2 with sv := v + offset }
      let (s4, t) := ivInner e dur disc startTime v stacked tag fuel s3
      let (s', rt, broke) := ivOuter e offset dur disc startTime stacked tag fuel rest s4
      (s', ⟨v :: rt.volts, mean t.arr :: rt.means, t.recs ++ rt.recs,
        (b :: t.stops) ++ rt.stops⟩, broke)

/-- Ordinary least squares for the linear model `I = G·V + b`, the
solution `scipy.optimize.curve_fit` computes on `iv_curve`'s data
(`iv.py` lines 113-116).  `none` models the failure `curve_fit` raises
when there are fewer data points than the model's two parameters, or
when the regression is singular (all voltages equal). -/
def olsFit (pts : List (ℚ × ℚ)) : Option (ℚ × ℚ) :=
  if pts.length < 2 then none
  else
    let n : ℚ := pts.length
    let xbar := (pts.map Prod.fst).sum / n
    let ybar := (pts.map Prod.snd).sum / n
    let sxx := (pts.map fun p => (p.1 - xbar) ^ 2).sum
    if sxx = 0 then none
    else
      let g := (pts.map fun p => (p.1 - xbar) * (p.2 - ybar)).sum / sxx
      some (g, ybar - g * xbar)

/-- The voltage levels `np.arange(start, start + step*number, step)`
produces for `step ≠ 0` (`iv.py` lines 69-71). -/
def sweepVoltages (start step : ℚ) (n : ℕ) : List ℚ :=
  List.map (fun i : ℕ => start + (i : ℚ) * step) (List.range n)

/-- Rational-side definedness of the `estimate_diameter` call made by
`iv_curve` (`iv.py` lines 120-129, fixed errors `1e-4` and
`double_electrode=False`): the asserts need `σ, L, G > 0` and, when a
channel conductance is given, `G < 2·Gc` keeps the series isolation
positive so the subsequent square root and divisions are defined.  (For
`G > 2·Gc` the Python may instead raise inside `math.sqrt`; either way no
theorem below depends on that region.) -/
def canEstimate (sc el g gc : ℚ) : Prop :=
  0 < sc ∧ 0 < el ∧ 0 < g ∧ (0 < gc → g < 2 * gc)

instance (sc el g gc : ℚ) : Decidable (canEstimate sc el g gc) := by
  unfold canEstimate
  infer_instance

/-- Terminal outcome of `iv_curve`: `aborted` models `return None`
(`iv.py` lines 109-110), `failed` models a raised exception
(`np.arange` with zero step, `curve_fit` on degenerate data, or
`estimate_diameter`'s failure), and `ok` carries the fitted conductance,
intercept and the suggested offset `-b/G`; the returned diameter is
`Calculator.estimate_diameter` applied to the fitted conductance. -/
inductive IVOutcome where
  | aborted
  | failed
  | ok (g intercept suggested : ℚ)
deriving DecidableEq

/-- Full result of one `iv_curve` call. -/
structure IVResult where
  recs : List Sample
  stops : List Bool
  means : List (Option ℚ)
  outcome : IVOutcome
  st : St
deriving DecidableEq

/-- Timer initialisation of `iv_curve` (`iv.py` lines 62-67): lap the
parent timer if it is running (taking the total elapsed time as
`start_time`), else start it with `start_time = 0`. -/
def ivInit (e : Env) (s0 : St) : ℚ × St :=
  if running s0 then
    let (_, tot, s') := timerLap e s0
    (tot, s')
  else ((0 : ℚ), timerStart e s0)

/-- Post-sweep tail of `iv_curve` on the non-cancelled path
(`iv.py` lines 112-144): fit the zero-padded arrays (`failed` when the
fit raises), re-derive the diameter (`failed` when `estimate_diameter`
raises), emit the final reporting record at the total elapsed time, and
return the fit results. -/
def ivConclude (e : Env) (sc el gc start step : ℚ) (n : ℕ) (repTag : Option ℚ)
    (s3 : St) (t : IVTrace) : IVResult :=
  let volts := t.volts ++ List.replicate (n - t.volts.length) 0
  let currs := t.means ++ List.replicate (n - t.means.length) (some 0)
  if currs.any fun c => c.isNone then ⟨t.recs, t.stops ++ [false], t.means, .failed, s3⟩
  else
    match olsFit (volts.zip (currs.map fun c => c.getD 0)) with
    | none => ⟨t.recs, t.stops ++ [false], t.means, .failed, s3⟩
    | some (g, icept) =>
      if canEstimate sc el g gc then
        let (_, total, s4) := timerCheck e s3
        let (c, s5) := readCurrent e s4
        ⟨t.recs ++ [⟨total, (sweepVoltages start step n).getLastD 0, c, repTag⟩],
          t.stops ++ [false], t.means, .ok g icept (-icept / g), s5⟩
      else ⟨t.recs, t.stops ++ [false], t.means, .failed, s3⟩

/-- `iv_curve` (`iv.py` lines 16-144): start or lap the parent timer
(fixing `start_time`), run the sweep steps, re-poll cancellation and
return `None` (outcome `aborted`) if it fires, otherwise conclude with
the fit, the diameter estimate and the final reporting record.  The
`report_progress` branch only emits progress fractions, never samples,
and is omitted. -/
def ivRun (e : Env) (sc el gc offset start step : ℚ) (n : ℕ) (dur disc : ℚ)
    (stacked : Bool) (estTag repTag : Option ℚ) (fuel : ℕ) (s0 : St) : IVResult :=
  if step = 0 then ⟨[], [], [], .failed, s0⟩
  else
    let (startTime, s1) := ivInit e s0
    let (s2, t, _) :=
      ivOuter e offset dur disc startTime stacked estTag fuel (sweepVoltages start step n) s1
    let (b, s3) := checkStop e s2
    if b then ⟨t.recs, t.stops ++ [b], t.means, .aborted, s3⟩
    else ivConclude e sc el gc start step n repTag s3 t

/-- Inner `while True` loop of `square_pulse` (`pulse.py` lines 26-40):
poll cancellation (break on true), read the clock, emit one record at
`total_time`, break once `lap_time > pulse_time`. -/
def squarePulseLoop (e : Env) (pulseTime v : ℚ) (tag : Option ℚ) :
    ℕ → St → St × List Sample × List Bool
  | 0, s => (s, [], [])
  | fuel + 1, s =>
    let (b, s1) := checkStop e s
    if b then (s1, [], [b])
    else
      let (lap, total, s2) := timerCheck e s1
      let (c, s3) := readCurrent e s2
      let sample : Sample := ⟨total, v, c, tag⟩
      if pulseTime < lap then (s3, [sample], [b])
      else
        let (s', recs, st) := squarePulseLoop e pulseTime v tag fuel s3
        (s', sample :: recs, b :: st)

/-- `square_pulse` (`pulse.py` lines 11-40): `timer.start_or_lap()`, set
`pulse_voltage + pipette_offset`, then loop. -/
def square_pulse (e : Env) (offset pulseTime pulseV : ℚ) (tag : Option ℚ) (fuel : ℕ)
    (s0 : St) : St × List Sample × List Bool :=
  let s1 := if running s0 then (timerLap e s0).2.2 else timerStart e s0
  let s2 := { s1 with sv := pulseV + offset }
  squarePulseLoop e pulseTime pulseV tag fuel s2

end Run

/-- Modelled from the spec (claim C4): the claimed retention rule — a
sample is kept for the per-step mean iff its in-step elapsed time exceeds
`discard_fraction · duration`. -/
def spec_fraction_retains (disc dur lap : ℚ) : Prop := disc * dur < lap

/-- Environment of the C4 counterexample: clock readings
0, 10, 25/2, 14, …, constant current 7, cancellation never firing. -/
def envC4 : Run.Env :=
  ⟨fun k => [0, 10, 25 / 2, 14].getD k 100, fun _ _ => 7, fun _ => false⟩

/-- C4 counterexample: one 3-second step with `sweep_discard = 2` (the
repository's own GUI default, declared in seconds in `nanoprep.py` lines
174-181).  The only sample, recorded at in-step time 5/2, is retained by
the code into the step mean (the step mean is `some 7`), yet the claimed
rule `lap > discard_fraction · duration = 2 · 3` would discard it:
`sweep_discard` is compared as an absolute time, not as a fraction of the
duration. -/
theorem iv_discard_claim_counterexample :
    (Run.ivRun envC4 1 1 0 0 0 1 1 3 2 false none none 5 ⟨0, 0, 0, [], 0⟩).means
        = [some 7]
      ∧ ¬ spec_fraction_retains 2 3 (5 / 2) := by
  constructor
  · norm_num [Run.ivRun, Run.ivInit, Run.ivConclude, Run.ivOuter, Run.ivInner,
      Run.running, Run.timerStart, Run.timerLap, Run.timerCheck, Run.readCurrent,
      Run.checkStop, Run.perf, Run.sweepVoltages, Run.mean, Run.olsFit,
      Run.canEstimate, Run.IVTrace.nil, Run.StepTrace.nil, envC4]
  · rw [spec_fraction_retains]
    norm_num

/-- C4 (amended): in each `iv_curve` step, the samples retained for the
per-step mean are exactly the recorded ones whose in-step elapsed time
`lap` satisfies `sweep_discard < lap ≤ sweep_duration`, where
`sweep_discard` is an absolute time in seconds (the code's comparison
`lap_time > sweep_discard`), not a fraction of the step duration. -/
theorem iv_discard_window (e : Run.Env) (dur disc startTime v : ℚ) (stacked : Bool)
    (tag : Option ℚ) (fuel : ℕ) (s : Run.St) :
    ((Run.ivInner e dur disc startTime v stacked tag fuel s).2).arr =
        (((Run.ivInner e dur disc startTime v stacked tag fuel s).2).recLaps.filter
          fun p => decide (disc < p.1 ∧ p.1 ≤ dur)).map Prod.snd
      ∧ ((Run.ivInner e dur disc startTime v stacked tag fuel s).2).recs.map Run.Sample.current
        = ((Run.ivInner e dur disc startTime v stacked tag fuel s).2).recLaps.map Prod.snd := by
  induction fuel generalizing s with
  | zero => simp [Run.ivInner, Run.StepTrace.nil]
  | succ fuel ih =>
    rw [Run.ivInner]
    split
    next lap total s1 heq =>
      split
      · simp [Run.StepTrace.nil]
      · split
        next c s2 heq2 =>
          obtain ⟨ih1, ih2⟩ := ih (Run.checkStop e s2).2
          by_cases hb : (Run.checkStop e s2).1 = true
          · by_cases hkeep : disc < lap ∧ lap ≤ dur <;>
              simp [hb, hkeep, List.filter_cons]
          · by_cases hkeep : disc < lap ∧ lap ≤ dur <;>
              simp [hb, hkeep, List.filter_cons, ih1, ih2]

/-- Environment of the C8 counterexample: clock readings
0, 1, 19/10, 3, 7/2, 18/5, 5, …, constant current 1, cancellation never
firing. -/
def envC8 : Run.Env :=
  ⟨fun k => [0, 1, 19 / 10, 3, 7 / 2, 18 / 5, 5].getD k 100, fun _ _ => 1, fun _ => false⟩

set_option maxHeartbeats 1000000 in
/-- C8 counterexample: a two-step stacked sweep (`stacked=True`, so each
record's time is `start_time + lap_time`, which resets at every step)
emits samples at times 9/10 and then 1/10 — the second emitted sample's
time is smaller than the first's, so emission times are not strictly
increasing. -/
theorem iv_stacked_times_counterexample :
    (Run.ivRun envC8 1 1 0 0 1 1 2 1 0 true none none 2 ⟨0, 0, 0, [], 0⟩).recs.map
        Run.Sample.time = [9 / 10, 1 / 10]
      ∧ ¬ List.Pairwise (· < ·)
        ((Run.ivRun envC8 1 1 0 0 1 1 2 1 0 true none none 2 ⟨0, 0, 0, [], 0⟩).recs.map
          Run.Sample.time) := by
  have hInner1 : Run.ivInner envC8 1 0 0 1 true none 2 ⟨2, 0, 1, [0, 1], 1⟩ =
      (⟨4, 1, 2, [0, 1], 1⟩, ⟨[1], [⟨9 / 10, 1, 1, none⟩], [(9 / 10, 1)], [false]⟩) := by
    norm_num [Run.ivInner, Run.timerCheck, Run.readCurrent, Run.checkStop, Run.perf,
      Run.StepTrace.nil, envC8]
  have hInner2 : Run.ivInner envC8 1 0 0 2 true none 2 ⟨5, 1, 3, [0, 1, 7 / 2], 2⟩ =
      (⟨7, 2, 4, [0, 1, 7 / 2], 2⟩,
        ⟨[1], [⟨1 / 10, 2, 1, none⟩], [(1 / 10, 1)], [false]⟩) := by
    norm_num [Run.ivInner, Run.timerCheck, Run.readCurrent, Run.checkStop, Run.perf,
      Run.StepTrace.nil, envC8]
  have ht : ∀ k, envC8.ticks k = [0, 1, 19 / 10, 3, 7 / 2, 18 / 5, 5].getD k 100 :=
    fun _ => rfl
  have hs : ∀ k, envC8.stop k = false := fun _ => rfl
  have hOuter : Run.ivOuter envC8 0 1 0 0 true none 2 [1, 2] ⟨1, 0, 0, [0], 0⟩ =
      (⟨7, 2, 4, [0, 1, 7 / 2], 2⟩,
        ⟨[1, 2], [some 1, some 1], [⟨9 / 10, 1, 1, none⟩, ⟨1 / 10, 2, 1, none⟩],
          [false, false, false, false]⟩, false) := by
    norm_num [Run.ivOuter, Run.timerLap, Run.checkStop, Run.perf, Run.mean,
      Run.IVTrace.nil, ht, hs, hInner1, hInner2]
  have h : (Run.ivRun envC8 1 1 0 0 1 1 2 1 0 true none none 2 ⟨0, 0, 0, [], 0⟩).recs.map
      Run.Sample.time = [9 / 10, 1 / 10] := by
    have hv : Run.sweepVoltages 1 1 2 = [1, 2] := by
      norm_num [Run.sweepVoltages, List.range_succ]
    rw [Run.ivRun]
    norm_num [Run.ivInit, Run.ivConclude, Run.running, Run.timerStart, Run.perf,
      Run.checkStop, Run.olsFit, Run.canEstimate, ht, hs, hv, hOuter]
  refine ⟨h, ?_⟩
  rw [h]
  intro hp
  have := List.rel_of_pairwise_cons hp (List.mem_singleton.mpr rfl)
  norm_num at this

/-- Emission times of a sample list. -/
def timesOf (l : List Run.Sample) : List ℚ := l.map Run.Sample.time

/-- Helper for C8: in non-stacked mode, one `iv_curve` step's inner loop
leaves the timer laps unchanged, advances the perf cursor, and emits
samples with strictly increasing times, all lying in the consumed tick
window relative to the timer's start reference. -/
theorem ivInner_times_mono (e : Run.Env) (hm : StrictMono e.ticks)
    (dur disc startTime v : ℚ) (tag : Option ℚ) (fuel : ℕ) (s : Run.St) :
    (Run.ivInner e dur disc startTime v false tag fuel s).1.laps = s.laps ∧
      s.tick ≤ (Run.ivInner e dur disc startTime v false tag fuel s).1.tick ∧
      List.Pairwise (· < ·)
        (timesOf ((Run.ivInner e dur disc startTime v false tag fuel s).2).recs) ∧
      ∀ x ∈ timesOf ((Run.ivInner e dur disc startTime v false tag fuel s).2).recs,
        e.ticks s.tick - s.laps.headD 0 ≤ x ∧
          x < e.ticks (Run.ivInner e dur disc startTime v false tag fuel s).1.tick -
            s.laps.headD 0 := by
  induction fuel generalizing s with
  | zero => simp [Run.ivInner, Run.StepTrace.nil, timesOf]
  | succ fuel ih =>
    simp only [Run.ivInner, Run.timerCheck, Run.perf, Run.readCurrent, Run.checkStop,
      Bool.false_eq_true, if_false]
    split
    · exact ⟨rfl, Nat.le_succ _, by simp [Run.StepTrace.nil, timesOf],
        by simp [Run.StepTrace.nil, timesOf]⟩
    · split
      · dsimp only
        refine ⟨rfl, Nat.le_succ _, by simp [timesOf], ?_⟩
        intro x hx
        simp only [timesOf, List.map_cons, List.map_nil, List.mem_singleton] at hx
        subst hx
        refine ⟨le_refl _, ?_⟩
        have := hm (Nat.lt_succ_self s.tick)
        exact sub_lt_sub_right this _
      · dsimp only
        obtain ⟨ihLaps, ihTick, ihPW, ihB⟩ :=
          ih ⟨s.tick + 1, s.rd + 1, s.ab + 1, s.laps, s.sv⟩
        dsimp only at ihLaps ihTick ihPW ihB
        have hnext : e.ticks s.tick < e.ticks (s.tick + 1) := hm (Nat.lt_succ_self s.tick)
        have hend : e.ticks (s.tick + 1) ≤ e.ticks
            (Run.ivInner e dur disc startTime v false tag fuel
              ⟨s.tick + 1, s.rd + 1, s.ab + 1, s.laps, s.sv⟩).1.tick :=
          hm.monotone ihTick
        refine ⟨ihLaps, le_trans (Nat.le_succ _) ihTick, ?_, ?_⟩
        · simp only [timesOf, List.map_cons, List.pairwise_cons]
          refine ⟨?_, ihPW⟩
          intro x hx
          have hlo := (ihB x hx).1
          have : e.ticks s.tick - s.laps.headD 0 < e.ticks (s.tick + 1) - s.laps.headD 0 :=
            sub_lt_sub_right hnext _
          linarith
        · intro x hx
          simp only [timesOf, List.map_cons, List.mem_cons] at hx
          rcases hx with hx | hx
          · subst hx
            refine ⟨le_refl _, ?_⟩
            exact sub_lt_sub_right (lt_of_lt_of_le hnext hend) _
          · obtain ⟨hlo, hhi⟩ := ihB x hx
            have : e.ticks s.tick - s.laps.headD 0 ≤ e.ticks (s.tick + 1) - s.laps.headD 0 :=
              sub_le_sub_right (le_of_lt hnext) _
            exact ⟨le_trans this hlo, hhi⟩

/-- Appending a lap keeps the head of a nonempty lap list. -/
theorem headD_append_ne_nil (l : List ℚ) (t d : ℚ) (h : l ≠ []) :
    (l ++ [t]).headD d = l.headD d := by
  cases l with
  | nil => exact absurd rfl h
  | cons a l => rfl

/-- Helper for C8: the non-stacked `iv_curve` outer loop keeps the timer
laps nonempty with an unchanged start reference, advances the perf
cursor, and emits samples with strictly increasing times inside the
consumed tick window. -/
theorem ivOuter_times_mono (e : Run.Env) (hm : StrictMono e.ticks)
    (offset dur disc startTime : ℚ) (tag : Option ℚ) (fuel : ℕ) (vs : List ℚ) (s : Run.St)
    (h0 : s.laps ≠ []) :
    ((Run.ivOuter e offset dur disc startTime false tag fuel vs s).1.laps ≠ [] ∧
      (Run.ivOuter e offset dur disc startTime false tag fuel vs s).1.laps.headD 0 =
        s.laps.headD 0) ∧
      s.tick ≤ (Run.ivOuter e offset dur disc startTime false tag fuel vs s).1.tick ∧
      List.Pairwise (· < ·)
        (timesOf ((Run.ivOuter e offset dur disc startTime false tag fuel vs s).2.1).recs) ∧
      ∀ x ∈ timesOf ((Run.ivOuter e offset dur disc startTime false tag fuel vs s).2.1).recs,
        e.ticks s.tick - s.laps.headD 0 ≤ x ∧
          x < e.ticks (Run.ivOuter e offset dur disc startTime false tag fuel vs s).1.tick -
            s.laps.headD 0 := by
  induction vs generalizing s with
  | nil =>
    exact ⟨⟨h0, rfl⟩, le_refl _, by simp [Run.ivOuter, Run.IVTrace.nil, timesOf],
      by simp [Run.ivOuter, Run.IVTrace.nil, timesOf]⟩
  | cons v rest ih =>
    simp only [Run.ivOuter, Run.timerLap, Run.perf, Run.checkStop]
    split
    · dsimp only
      have hne : s.laps ++ [e.ticks s.tick] ≠ [] := by simp
      refine ⟨⟨hne, headD_append_ne_nil _ _ _ h0⟩, Nat.le_succ _, by simp [timesOf], ?_⟩
      simp [timesOf]
    · dsimp only
      have hne : s.laps ++ [e.ticks s.tick] ≠ [] := by simp
      have hhd := headD_append_ne_nil s.laps (e.ticks s.tick) 0 h0
      obtain ⟨iLaps, iTick, iPW, iB⟩ := ivInner_times_mono e hm dur disc startTime v tag fuel
        ⟨s.tick + 1, s.rd, s.ab + 1, s.laps ++ [e.ticks s.tick], v + offset⟩
      dsimp only at iLaps iTick iPW iB
      set s4 := (Run.ivInner e dur disc startTime v false tag fuel
        ⟨s.tick + 1, s.rd, s.ab + 1, s.laps ++ [e.ticks s.tick], v + offset⟩).1 with hs4
      have h4ne : s4.laps ≠ [] := by rw [iLaps]; exact hne
      obtain ⟨⟨rLapsNe, rHd⟩, rTick, rPW, rB⟩ := ih s4 h4ne
      have h4hd : s4.laps.headD 0 = s.laps.headD 0 := by rw [iLaps, hhd]
      have hnext : e.ticks s.tick ≤ e.ticks (s.tick + 1) := hm.monotone (Nat.le_succ _)
      have hmid : e.ticks (s.tick + 1) ≤ e.ticks s4.tick := hm.monotone iTick
      have hend : e.ticks s4.tick ≤ e.ticks
          (Run.ivOuter e offset dur disc startTime false tag fuel rest s4).1.tick :=
        hm.monotone rTick
      refine ⟨⟨rLapsNe, by rw [rHd, h4hd]⟩, ?_, ?_, ?_⟩
      · exact le_trans (Nat.le_succ _) (le_trans iTick rTick)
      · simp only [timesOf, List.map_append]
        rw [List.pairwise_append]
        refine ⟨iPW, rPW, ?_⟩
        intro x hx y hy
        have hxu := (iB x hx).2
        have hyl := (rB y hy).1
        rw [hhd] at hxu
        rw [h4hd] at hyl
        calc x < e.ticks s4.tick - s.laps.headD 0 := hxu
          _ ≤ y := hyl
      · intro x hx
        simp only [timesOf, List.map_append, List.mem_append] at hx
        rcases hx with hx | hx
        · obtain ⟨hlo, hhi⟩ := iB x hx
          rw [hhd] at hlo hhi
          refine ⟨le_trans (sub_le_sub_right hnext _) hlo, ?_⟩
          exact lt_of_lt_of_le hhi (sub_le_sub_right hend _)
        · obtain ⟨hlo, hhi⟩ := rB x hx
          rw [h4hd] at hlo hhi
          refine ⟨?_, hhi⟩
          exact le_trans (sub_le_sub_right (le_trans hnext hmid) _) hlo

/-- Helper for C8: the `square_pulse` polling loop leaves the timer laps
unchanged, advances the perf cursor, and emits samples with strictly
increasing times inside the consumed tick window. -/
theorem squarePulseLoop_times_mono (e : Run.Env) (hm : StrictMono e.ticks)
    (pulseTime v : ℚ) (tag : Option ℚ) (fuel : ℕ) (s : Run.St) :
    (Run.squarePulseLoop e pulseTime v tag fuel s).1.laps = s.laps ∧
      s.tick ≤ (Run.squarePulseLoop e pulseTime v tag fuel s).1.tick ∧
      List.Pairwise (· < ·) (timesOf (Run.squarePulseLoop e pulseTime v tag fuel s).2.1) ∧
      ∀ x ∈ timesOf (Run.squarePulseLoop e pulseTime v tag fuel s).2.1,
        e.ticks s.tick - s.laps.headD 0 ≤ x ∧
          x < e.ticks (Run.squarePulseLoop e pulseTime v tag fuel s).1.tick -
            s.laps.headD 0 := by
  induction fuel generalizing s with
  | zero => simp [Run.squarePulseLoop, timesOf]
  | succ fuel ih =>
    simp only [Run.squarePulseLoop, Run.timerCheck, Run.perf, Run.readCurrent, Run.checkStop]
    split
    · exact ⟨rfl, le_refl _, by simp [timesOf], by simp [timesOf]⟩
    · split
      · dsimp only
        refine ⟨rfl, Nat.le_succ _, by simp [timesOf], ?_⟩
        intro x hx
        simp only [timesOf, List.map_cons, List.map_nil, List.mem_singleton] at hx
        subst hx
        exact ⟨le_refl _, sub_lt_sub_right (hm (Nat.lt_succ_self s.tick)) _⟩
      · dsimp only
        obtain ⟨ihLaps, ihTick, ihPW, ihB⟩ :=
          ih ⟨s.tick + 1, s.rd + 1, s.ab + 1, s.laps, s.sv⟩
        dsimp only at ihLaps ihTick ihPW ihB
        have hnext : e.ticks s.tick < e.ticks (s.tick + 1) := hm (Nat.lt_succ_self s.tick)
        have hend : e.ticks (s.tick + 1) ≤ e.ticks
            (Run.squarePulseLoop e pulseTime v tag fuel
              ⟨s.tick + 1, s.rd + 1, s.ab + 1, s.laps, s.sv⟩).1.tick :=
          hm.monotone ihTick
        refine ⟨ihLaps, le_trans (Nat.le_succ _) ihTick, ?_, ?_⟩
        · simp only [timesOf, List.map_cons, List.pairwise_cons]
          refine ⟨?_, ihPW⟩
          intro x hx
          have hlo := (ihB x hx).1
          have := sub_lt_sub_right hnext (s.laps.headD 0)
          linarith
        · intro x hx
          simp only [timesOf, List.map_cons, List.mem_cons] at hx
          rcases hx with hx | hx
          · subst hx
            exact ⟨le_refl _, sub_lt_sub_right (lt_of_lt_of_le hnext hend) _⟩
          · obtain ⟨hlo, hhi⟩ := ihB x hx
            exact ⟨le_trans (sub_le_sub_right (le_of_lt hnext) _) hlo, hhi⟩

/-- `ivInit` appends exactly one lap (the current clock reading) and
leaves the read and cancellation counters unchanged. -/
theorem ivInit_state (e : Run.Env) (s0 : Run.St) :
    (Run.ivInit e s0).2.laps = s0.laps ++ [e.ticks s0.tick] ∧
      (Run.ivInit e s0).2.tick = s0.tick + 1 ∧
      (Run.ivInit e s0).2.ab = s0.ab ∧ (Run.ivInit e s0).2.rd = s0.rd := by
  rw [Run.ivInit]
  split <;> simp [Run.timerLap, Run.timerStart, Run.perf]

/-- `ivConclude` either emits nothing beyond the sweep's records and
leaves the state untouched, or appends exactly the final reporting
record — whose time is the total elapsed time at the next clock
reading — while consuming one clock reading and one device read and
keeping the laps. -/
theorem ivConclude_cases (e : Run.Env) (sc el gc start step : ℚ) (n : ℕ)
    (repTag : Option ℚ) (s3 : Run.St) (t : Run.IVTrace) :
    ((Run.ivConclude e sc el gc start step n repTag s3 t).recs = t.recs ∧
        (Run.ivConclude e sc el gc start step n repTag s3 t).st = s3) ∨
      ((Run.ivConclude e sc el gc start step n repTag s3 t).recs = t.recs ++
          [⟨e.ticks s3.tick - s3.laps.headD 0, (Run.sweepVoltages start step n).getLastD 0,
            e.dev s3.sv s3.rd, repTag⟩] ∧
        (Run.ivConclude e sc el gc start step n repTag s3 t).st =
          ⟨s3.tick + 1, s3.rd + 1, s3.ab, s3.laps, s3.sv⟩) := by
  rw [Run.ivConclude]
  split
  · exact Or.inl ⟨rfl, rfl⟩
  · split
    · exact Or.inl ⟨rfl, rfl⟩
    · split
      · exact Or.inr ⟨rfl, rfl⟩
      · exact Or.inl ⟨rfl, rfl⟩

/-- Helper for C8: a non-stacked `iv_curve` run emits strictly
increasing times, and — unless it emitted nothing — its final state
keeps a nonempty lap list whose head is the start reference of every
emission, with all emitted times strictly below the total elapsed time
at the state's next clock reading. -/
theorem ivRun_nonstacked_bundle (e : Run.Env) (hm : StrictMono e.ticks)
    (sc el gc offset start step : ℚ) (n : ℕ) (dur disc : ℚ) (estTag repTag : Option ℚ)
    (fuel : ℕ) (s0 : Run.St) :
    List.Pairwise (· < ·)
      (timesOf (Run.ivRun e sc el gc offset start step n dur disc false estTag repTag
        fuel s0).recs) ∧
      ((Run.ivRun e sc el gc offset start step n dur disc false estTag repTag
          fuel s0).recs = [] ∨
        ((Run.ivRun e sc el gc offset start step n dur disc false estTag repTag
            fuel s0).st.laps ≠ [] ∧
          ∀ x ∈ timesOf (Run.ivRun e sc el gc offset start step n dur disc false estTag
            repTag fuel s0).recs,
            x < e.ticks (Run.ivRun e sc el gc offset start step n dur disc false estTag
              repTag fuel s0).st.tick -
              (Run.ivRun e sc el gc offset start step n dur disc false estTag repTag
                fuel s0).st.laps.headD 0)) := by
  rw [Run.ivRun]
  split
  · exact ⟨by simp [timesOf], Or.inl rfl⟩
  · have h1laps := (ivInit_state e s0).1
    rcases hinit : Run.ivInit e s0 with ⟨startTime, s1⟩
    rw [hinit] at h1laps
    have h1ne : s1.laps ≠ [] := by rw [h1laps]; simp
    try dsimp only
    have hmono := ivOuter_times_mono e hm offset dur disc
      startTime estTag fuel (Run.sweepVoltages start step n) s1 h1ne
    rcases houter : Run.ivOuter e offset dur disc startTime false estTag fuel
      (Run.sweepVoltages start step n) s1 with ⟨s2, t, broke⟩
    obtain ⟨⟨oNe, oHd⟩, oTick, oPW, oB⟩ := hmono
    rw [houter] at oNe oHd oTick oPW oB
    try dsimp only at oNe oHd oTick oPW oB
    try dsimp only
    simp only [Run.checkStop]
    split
    · refine ⟨oPW, Or.inr ⟨oNe, ?_⟩⟩
      intro x hx
      try dsimp only
      rw [oHd]
      exact (oB x hx).2
    · rcases ivConclude_cases e sc el gc start step n repTag
        ⟨s2.tick, s2.rd, s2.ab + 1, s2.laps, s2.sv⟩ t with ⟨hc, hst⟩ | ⟨hc, hst⟩ <;>
        rw [hc, hst]
      · refine ⟨oPW, Or.inr ⟨oNe, ?_⟩⟩
        intro x hx
        try dsimp only
        rw [oHd]
        exact (oB x hx).2
      · have hstep2 : e.ticks s2.tick < e.ticks (s2.tick + 1) := hm (Nat.lt_succ_self _)
        constructor
        · simp only [timesOf, List.map_append, List.map_cons, List.map_nil]
          rw [List.pairwise_append]
          refine ⟨oPW, List.pairwise_singleton _ _, ?_⟩
          intro x hx y hy
          simp only [List.mem_singleton] at hy
          subst hy
          try dsimp only
          rw [oHd]
          exact (oB x hx).2
        · refine Or.inr ⟨oNe, ?_⟩
          intro x hx
          simp only [timesOf, List.map_append, List.map_cons, List.map_nil,
            List.mem_append, List.mem_singleton] at hx
          try dsimp only
          rcases hx with hx | hx
          · rw [oHd]
            exact lt_trans ((oB x hx).2) (sub_lt_sub_right hstep2 _)
          · subst hx
            exact sub_lt_sub_right hstep2 _

/-- Helper for C8: `square_pulse` emits strictly increasing times, and
when started on a running timer every emitted time lies strictly above
the total elapsed time at the initial state's next clock reading's
predecessor — i.e. strictly after everything a previous primitive on the
same timer emitted. -/
theorem square_pulse_bundle (e : Run.Env) (hm : StrictMono e.ticks)
    (offp pt pv : ℚ) (tagp : Option ℚ) (fuelp : ℕ) (s : Run.St) :
    List.Pairwise (· < ·) (timesOf (Run.square_pulse e offp pt pv tagp fuelp s).2.1) ∧
      (s.laps ≠ [] → ∀ x ∈ timesOf (Run.square_pulse e offp pt pv tagp fuelp s).2.1,
        e.ticks s.tick - s.laps.headD 0 < x) := by
  rw [Run.square_pulse]
  split
  · next hrun =>
    simp only [Run.timerLap, Run.perf]
    try dsimp only
    obtain ⟨pLaps, pTick, pPW, pB⟩ := squarePulseLoop_times_mono e hm pt pv tagp fuelp
      ⟨s.tick + 1, s.rd, s.ab, s.laps ++ [e.ticks s.tick], pv + offp⟩
    try dsimp only at pLaps pTick pPW pB
    refine ⟨pPW, ?_⟩
    intro hne x hx
    have hlo := (pB x hx).1
    rw [headD_append_ne_nil s.laps (e.ticks s.tick) 0 hne] at hlo
    have := sub_lt_sub_right (hm (Nat.lt_succ_self s.tick)) (s.laps.headD 0)
    linarith
  · next hrun =>
    have hnil : s.laps = [] := by
      simpa [Run.running, List.isEmpty_iff] using hrun
    refine ⟨(squarePulseLoop_times_mono e hm pt pv tagp fuelp _).2.2.1, ?_⟩
    intro hne
    exact absurd hnil hne

/-- C8 (amended): in non-stacked mode the sample streams of the
primitives are emitted in strictly increasing time order whenever the
monotonic clock's readings are strictly increasing, and — because every
record's time is the total elapsed time against the shared timer's
fixed start reference — the order extends across a sequential
composition: an `iv_curve` run (final reporting record included)
followed by a `square_pulse` on the timer state the sweep left behind
yields one concatenated, strictly increasing sample stream.  (With
`stacked=True`, `iv_curve` instead emits `start_time + lap_time`, which
restarts at each step — the subject of the counterexample.) -/
theorem run_times_strictly_increasing (e : Run.Env)
    (sc el gc offset start step : ℚ) (n : ℕ) (dur disc : ℚ) (estTag repTag : Option ℚ)
    (fuel : ℕ) (s0 : Run.St) (offp pt pv : ℚ) (tagp : Option ℚ) (fuelp : ℕ)
    (hm : StrictMono e.ticks) :
    List.Pairwise (· < ·) (timesOf
      ((Run.ivRun e sc el gc offset start step n dur disc false estTag repTag
          fuel s0).recs ++
        (Run.square_pulse e offp pt pv tagp fuelp
          (Run.ivRun e sc el gc offset start step n dur disc false estTag repTag
            fuel s0).st).2.1)) := by
  obtain ⟨ivPW, ivB⟩ := ivRun_nonstacked_bundle e hm sc el gc offset start step n dur
    disc estTag repTag fuel s0
  obtain ⟨pPW, pB⟩ := square_pulse_bundle e hm offp pt pv tagp fuelp
    (Run.ivRun e sc el gc offset start step n dur disc false estTag repTag fuel s0).st
  simp only [timesOf, List.map_append] at ivPW ivB pPW pB ⊢
  rw [List.pairwise_append]
  refine ⟨ivPW, pPW, ?_⟩
  intro x hx y hy
  rcases ivB with hnil | ⟨hne, hbound⟩
  · rw [hnil] at hx
    simp at hx
  · exact lt_trans (hbound x hx) (pB hne y hy)

/-- Environment used by several witnesses: the clock reads its own call
index, the device reads 0, cancellation never fires. -/
def envW : Run.Env := ⟨fun k => (k : ℚ), fun _ _ => 0, fun _ => false⟩

/-- The witness clock is strictly monotone. -/
theorem envW_ticks_strictMono : StrictMono envW.ticks := by
  intro a b h
  show (a : ℚ) < b
  exact_mod_cast h

/-- C8 witness: the amended theorem applied to the `envW` environment —
a one-step sweep followed by a short square pulse that starts from the
timer state the sweep left behind, so the two primitives share the
timer. -/
theorem run_times_strictly_increasing_witness :
    List.Pairwise (· < ·) (timesOf
      ((Run.ivRun envW 1 1 0 0 0 1 1 1 0 false none none 1 ⟨0, 0, 0, [], 0⟩).recs ++
        (Run.square_pulse envW 0 1 1 none 1
          (Run.ivRun envW 1 1 0 0 0 1 1 1 0 false none none 1 ⟨0, 0, 0, [], 0⟩).st).2.1)) :=
  run_times_strictly_increasing envW 1 1 0 0 0 1 1 1 0 none none 1 ⟨0, 0, 0, [], 0⟩
    0 1 1 none 1 envW_ticks_strictMono

/-- Helper for C3: every cancellation check of one inner sweep step is
consulted at an index in the consumed window, and the counter only
advances. -/
theorem ivInner_stops (e : Run.Env) (dur disc startTime v : ℚ) (stacked : Bool)
    (tag : Option ℚ) (fuel : ℕ) (s : Run.St) :
    s.ab ≤ (Run.ivInner e dur disc startTime v stacked tag fuel s).1.ab ∧
      ∀ b ∈ ((Run.ivInner e dur disc startTime v stacked tag fuel s).2).stops, b = true →
        ∃ k, s.ab ≤ k ∧ k < (Run.ivInner e dur disc startTime v stacked tag fuel s).1.ab ∧
          e.stop k = true := by
  induction fuel generalizing s with
  | zero => simp [Run.ivInner, Run.StepTrace.nil]
  | succ fuel ih =>
    simp only [Run.ivInner, Run.timerCheck, Run.perf, Run.readCurrent, Run.checkStop]
    split
    · simp [Run.StepTrace.nil]
    · split
      · dsimp only
        refine ⟨Nat.le_succ _, ?_⟩
        intro b hb hbt
        simp only [List.mem_singleton] at hb
        subst hb
        exact ⟨s.ab, le_refl _, Nat.lt_succ_self _, hbt⟩
      · dsimp only
        next hstop =>
          obtain ⟨ihAb, ihStops⟩ := ih ⟨s.tick + 1, s.rd + 1, s.ab + 1, s.laps, s.sv⟩
          dsimp only at ihAb ihStops
          refine ⟨le_trans (Nat.le_succ _) ihAb, ?_⟩
          intro b hb hbt
          simp only [List.mem_cons] at hb
          rcases hb with hb | hb
          · subst hb
            exact absurd hbt hstop
          · obtain ⟨k, hk1, hk2, hk3⟩ := ihStops b hb hbt
            exact ⟨k, le_trans (Nat.le_succ _) hk1, hk2, hk3⟩

/-- Helper for C3: the outer sweep loop's cancellation checks all lie in
the consumed index window; an early `for` break implies one of them
returned true; and without an early break every step's voltage and mean
were assigned. -/
theorem ivOuter_stops (e : Run.Env) (offset dur disc startTime : ℚ) (stacked : Bool)
    (tag : Option ℚ) (fuel : ℕ) (vs : List ℚ) (s : Run.St) :
    s.ab ≤ (Run.ivOuter e offset dur disc startTime stacked tag fuel vs s).1.ab ∧
      (∀ b ∈ ((Run.ivOuter e offset dur disc startTime stacked tag fuel vs s).2.1).stops,
        b = true →
        ∃ k, s.ab ≤ k ∧
          k < (Run.ivOuter e offset dur disc startTime stacked tag fuel vs s).1.ab ∧
          e.stop k = true) ∧
      ((Run.ivOuter e offset dur disc startTime stacked tag fuel vs s).2.2 = true →
        ∃ k, s.ab ≤ k ∧
          k < (Run.ivOuter e offset dur disc startTime stacked tag fuel vs s).1.ab ∧
          e.stop k = true) ∧
      ((Run.ivOuter e offset dur disc startTime stacked tag fuel vs s).2.2 = false →
        ((Run.ivOuter e offset dur disc startTime stacked tag fuel vs s).2.1).volts.length
            = vs.length ∧
          ((Run.ivOuter e offset dur disc startTime stacked tag fuel vs s).2.1).means.length
            = vs.length) := by
  induction vs generalizing s with
  | nil => simp [Run.ivOuter, Run.IVTrace.nil]
  | cons v rest ih =>
    simp only [Run.ivOuter, Run.timerLap, Run.perf, Run.checkStop]
    split
    · dsimp only
      next hstop =>
        refine ⟨Nat.le_succ _, ?_, ?_, ?_⟩
        · intro b hb hbt
          simp only [List.mem_singleton] at hb
          subst hb
          exact ⟨s.ab, le_refl _, Nat.lt_succ_self _, hbt⟩
        · intro _
          exact ⟨s.ab, le_refl _, Nat.lt_succ_self _, hstop⟩
        · intro hfalse
          cases hfalse
    · dsimp only
      next hstop =>
        obtain ⟨iAb, iStops⟩ := ivInner_stops e dur disc startTime v stacked tag fuel
          ⟨s.tick + 1, s.rd, s.ab + 1, s.laps ++ [e.ticks s.tick], v + offset⟩
        dsimp only at iAb iStops
        set s4 := (Run.ivInner e dur disc startTime v stacked tag fuel
          ⟨s.tick + 1, s.rd, s.ab + 1, s.laps ++ [e.ticks s.tick], v + offset⟩).1 with hs4
        obtain ⟨rAb, rStops, rBroke, rLen⟩ := ih s4
        refine ⟨le_trans (Nat.le_succ _) (le_trans iAb rAb), ?_, ?_, ?_⟩
        · intro b hb hbt
          simp only [List.cons_append, List.mem_cons, List.mem_append] at hb
          rcases hb with hb | hb | hb
          · subst hb
            exact absurd hbt hstop
          · obtain ⟨k, hk1, hk2, hk3⟩ := iStops b hb hbt
            exact ⟨k, le_trans (Nat.le_succ _) hk1, lt_of_lt_of_le hk2 rAb, hk3⟩
          · obtain ⟨k, hk1, hk2, hk3⟩ := rStops b hb hbt
            exact ⟨k, le_trans (Nat.le_succ _) (le_trans iAb hk1), hk2, hk3⟩
        · intro hbroke
          obtain ⟨k, hk1, hk2, hk3⟩ := rBroke hbroke
          exact ⟨k, le_trans (Nat.le_succ _) (le_trans iAb hk1), hk2, hk3⟩
        · intro hbroke
          obtain ⟨h1, h2⟩ := rLen hbroke
          simp [h1, h2]

/-- The sweep produces one voltage level per step. -/
theorem sweepVoltages_length (start step : ℚ) (n : ℕ) :
    (Run.sweepVoltages start step n).length = n := by
  simp only [Run.sweepVoltages, List.length_map, List.length_range]

/-- `ivConclude` re-emits the sweep's cancellation results plus the final
(false) check. -/
theorem ivConclude_stops (e : Run.Env) (sc el gc start step : ℚ) (n : ℕ)
    (repTag : Option ℚ) (s3 : Run.St) (t : Run.IVTrace) :
    (Run.ivConclude e sc el gc start step n repTag s3 t).stops = t.stops ++ [false] := by
  rw [Run.ivConclude]
  split
  · rfl
  · split
    · rfl
    · split
      · rfl
      · rfl

/-- With fewer than two data points the fit fails: `ivConclude` reports
`failed`. -/
theorem ivConclude_failed_of_short (e : Run.Env) (sc el gc start step : ℚ) (n : ℕ)
    (repTag : Option ℚ) (s3 : Run.St) (t : Run.IVTrace)
    (hv : t.volts.length = n) (hmns : t.means.length = n) (hn : n < 2) :
    (Run.ivConclude e sc el gc start step n repTag s3 t).outcome = .failed := by
  rw [Run.ivConclude]
  split
  · rfl
  · have hlen : ((t.volts ++ List.replicate (n - t.volts.length) 0).zip
        ((t.means ++ List.replicate (n - t.means.length) (some 0)).map
          fun c : Option ℚ => c.getD 0)).length < 2 := by
      simp [hv, hmns]
      omega
    rw [Run.olsFit, if_pos hlen]

/-- C3: for a cancellation predicate that stays true once true (the
spec's cancellation capability: "a zero-argument predicate returning
true once the operator requests stop"), if any cancellation check of an
`iv_curve` run returned true then the run returns `None` (outcome
`aborted`, distinguishable by construction from any computed result) —
the linear fit is never reached; and a run that was not cancelled but
sampled fewer than 2 distinct voltage levels (`sweep_number < 2`, or
`sweep_step = 0`, where `np.arange` already raises) reports a failure
instead of returning a fitted conductance, diameter or offset. -/
theorem iv_cancel_aborts_and_degenerate_fit_fails (e : Run.Env)
    (sc el gc offset start step : ℚ) (n : ℕ) (dur disc : ℚ) (stacked : Bool)
    (estTag repTag : Option ℚ) (fuel : ℕ) (s0 : Run.St)
    (hmono : ∀ i j, i ≤ j → e.stop i = true → e.stop j = true) :
    (true ∈ (Run.ivRun e sc el gc offset start step n dur disc stacked estTag repTag
        fuel s0).stops →
      (Run.ivRun e sc el gc offset start step n dur disc stacked estTag repTag
        fuel s0).outcome = .aborted) ∧
      ((Run.ivRun e sc el gc offset start step n dur disc stacked estTag repTag
          fuel s0).outcome ≠ .aborted → n < 2 ∨ step = 0 →
        (Run.ivRun e sc el gc offset start step n dur disc stacked estTag repTag
          fuel s0).outcome = .failed) := by
  rw [Run.ivRun]
  split
  · refine ⟨fun h => ?_, fun _ _ => rfl⟩
    simp at h
  · next hstep =>
    rcases hinit : Run.ivInit e s0 with ⟨startTime, s1⟩
    try dsimp only
    have hstops := ivOuter_stops e offset dur disc startTime stacked estTag fuel
      (Run.sweepVoltages start step n) s1
    rcases houter : Run.ivOuter e offset dur disc startTime stacked estTag fuel
      (Run.sweepVoltages start step n) s1 with ⟨s2, t, broke⟩
    rw [houter] at hstops
    obtain ⟨oAb, oStops, oBroke, oLen⟩ := hstops
    try dsimp only at oAb oStops oBroke oLen
    try dsimp only
    simp only [Run.checkStop]
    split
    · exact ⟨fun _ => rfl, fun hne _ => absurd rfl hne⟩
    · next hb =>
      constructor
      · intro htrue
        rw [ivConclude_stops] at htrue
        exfalso
        rcases List.mem_append.mp htrue with hmem | hmem
        · obtain ⟨k, _, hk2, hk3⟩ := oStops true hmem rfl
          exact hb (hmono k s2.ab (le_of_lt hk2) hk3)
        · simp at hmem
      · intro _ hdeg
        rcases hdeg with hn | hstep0
        · have hbroke : broke = false := by
            cases hbk : broke
            · rfl
            · obtain ⟨k, _, hk2, hk3⟩ := oBroke hbk
              exact absurd (hmono k s2.ab (le_of_lt hk2) hk3) hb
          obtain ⟨hv, hm2⟩ := oLen hbroke
          rw [sweepVoltages_length] at hv hm2
          exact ivConclude_failed_of_short e sc el gc start step n repTag _ t hv hm2 hn
        · exact absurd hstep0 hstep

/-- Environment of the C3 witness: cancellation is requested from the
start. -/
def envC3 : Run.Env := ⟨fun k => (k : ℚ), fun _ _ => 0, fun _ => true⟩

/-- C3 witness: the theorem applied to a one-step sweep whose first
cancellation check fires; the run ends `aborted`. -/
theorem iv_cancel_aborts_witness :
    (Run.ivRun envC3 1 1 0 0 0 1 1 1 0 false none none 1 ⟨0, 0, 0, [], 0⟩).outcome
      = Run.IVOutcome.aborted := by
  have hmem : true ∈
      (Run.ivRun envC3 1 1 0 0 0 1 1 1 0 false none none 1 ⟨0, 0, 0, [], 0⟩).stops := by
    norm_num [Run.ivRun, Run.ivInit, Run.ivOuter, Run.running, Run.timerStart,
      Run.timerLap, Run.perf, Run.checkStop, Run.sweepVoltages, Run.IVTrace.nil, envC3]
  exact (iv_cancel_aborts_and_degenerate_fit_fails envC3 1 1 0 0 0 1 1 1 0 false
    none none 1 ⟨0, 0, 0, [], 0⟩ (fun _ _ _ _ => rfl)).1 hmem

namespace Pipette

/-- Hold loop of `pipette_offset` (`pipette_offset_2022_0.py` lines
36-53 and 81-98), with fuel: per iteration it polls cancellation
(breaking on true), reads the clock, appends a current reading to the
averaging array once `lap_time > wait_time`, emits a record (the code
reads the device again and reports `voltage=0`), and breaks once
`lap_time > hold_time`.  Exhausted fuel behaves like the hold break. -/
def holdLoop (e : Run.Env) (wait hold : ℚ) (tag : Option ℚ) :
    ℕ → Run.St → Run.St × List ℚ × List Run.Sample
  | 0, s => (s, [], [])
  | fuel + 1, s =>
    let (b, s1) := Run.checkStop e s
    if b then (s1, [], [])
    else
      let (lap, total, s2) := Run.timerCheck e s1
      let (arrAdd, s3) :=
        if wait < lap then
          let (c, s') := Run.readCurrent e s2
          ([c], s')
        else (([] : List ℚ), s2)
      let (c2, s4) := Run.readCurrent e s3
      let sample : Run.Sample := ⟨total, 0, c2, tag⟩
      if hold < lap then (s4, arrAdd, [sample])
      else
        let (s', arr, recs) := holdLoop e wait hold tag fuel s4
        (s', arrAdd ++ arr, sample :: recs)

/-- `avg_current > 0` as Python evaluates it: `nan > 0` is false. -/
def avgGtZero : Option ℚ → Bool
  | none => false
  | some a => decide (0 < a)

/-- `abs(avg_current) <= threshold` as Python evaluates it:
`abs(nan) <= threshold` is false. -/
def avgWithin (threshold : ℚ) : Option ℚ → Bool
  | none => false
  | some a => decide (|a| ≤ threshold)

/-- The bisection step `max_offset / 2**(i+2)`
(`pipette_offset_2022_0.py` lines 109, 111). -/
def adjustStep (maxOff : ℚ) (i : ℕ) : ℚ := maxOff / 2 ^ (i + 2)

/-- The voltage adjustment after a non-converged round
(`pipette_offset_2022_0.py` lines 108-111). -/
def adjustVoltage (v : ℚ) (avg : Option ℚ) (maxOff : ℚ) (i : ℕ) : ℚ :=
  if avgGtZero avg then v - adjustStep maxOff i else v + adjustStep maxOff i

/-- One bisection round's trial voltage and post-settling averaged
current (`none` models the `nan` of an empty averaging window). -/
structure RoundInfo where
  trial : ℚ
  avg : Option ℚ
deriving DecidableEq

/-- How a `pipette_offset` call returned. -/
inductive POTag where
  | abortedBaseline
  | zeroOffset
  | converged
  | abortedRound
  | exhausted
deriving DecidableEq

/-- Result of the bisection rounds, and of `pipette_offset` itself. -/
structure POResult where
  st : Run.St
  rounds : List RoundInfo
  recs : List Run.Sample
  result : ℚ
  tag : POTag
deriving DecidableEq

/-- The `for i in range(iterations)` bisection loop of `pipette_offset`
(`pipette_offset_2022_0.py` lines 72-114), over an explicit index list:
per round it polls cancellation (a break returns the current,
unadjusted trial voltage), laps the timer, applies the trial voltage,
averages the post-settling current, returns the trial voltage on
convergence, else adjusts by `±max_offset/2**(i+2)` (toward zero
current) and continues; exhausting the list returns the last adjusted
voltage. -/
def poRounds (e : Run.Env) (hold wait threshold maxOff : ℚ) (tag : Option ℚ) (fuel : ℕ) :
    List ℕ → ℚ → Run.St → POResult
  | [], v, s => ⟨s, [], [], v, .exhausted⟩
  | i :: rest, v, s =>
    let (b, s1) := Run.checkStop e s
    if b then ⟨s1, [], [], v, .abortedRound⟩
    else
      let s2 := (Run.timerLap e s1).2.2
      let s3 := { s2 with sv := v }
      let (s4, arr, recs) := holdLoop e wait hold tag fuel s3
      let avg := Run.mean arr
      if avgWithin threshold avg then ⟨s4, [⟨v, avg⟩], recs, v, .converged⟩
      else
        let r := poRounds e hold wait threshold maxOff tag fuel rest
          (adjustVoltage v avg maxOff i) s4
        ⟨r.st, ⟨v, avg⟩ :: r.rounds, recs ++ r.recs, r.result, r.tag⟩

/-- Baseline phase of `pipette_offset` (`pipette_offset_2022_0.py` lines
27-53): `timer.start_or_lap()`, apply 0 V, hold. -/
def poBaseline (e : Run.Env) (hold wait : ℚ) (tag : Option ℚ) (fuel : ℕ)
    (s0 : Run.St) : Run.St × List ℚ × List Run.Sample :=
  let s1 := if Run.running s0 then (Run.timerLap e s0).2.2 else Run.timerStart e s0
  let s2 := { s1 with sv := 0 }
  holdLoop e wait hold tag fuel s2

/-- `pipette_offset` (`pipette_offset_2022_0.py` lines 14-114): measure
the 0 V baseline; return 0 if cancellation fired during/after it or if
the baseline is already within threshold; otherwise start the bisection
at `±max_offset/2` (sign opposite the baseline current) and run the
rounds. -/
def pipette_offset (e : Run.Env) (hold wait threshold maxOff : ℚ) (iterations : ℕ)
    (tag : Option ℚ) (fuel : ℕ) (s0 : Run.St) : POResult :=
  let (s3, arr, recs0) := poBaseline e hold wait tag fuel s0
  let (b, s4) := Run.checkStop e s3
  if b then ⟨s4, [], recs0, 0, .abortedBaseline⟩
  else
    let avg := Run.mean arr
    if avgWithin threshold avg then ⟨s4, [], recs0, 0, .zeroOffset⟩
    else
      let v0 := if avgGtZero avg then -maxOff / 2 else maxOff / 2
      let r := poRounds e hold wait threshold maxOff tag fuel (List.range iterations) v0 s4
      ⟨r.st, r.rounds, recs0 ++ r.recs, r.result, r.tag⟩

/-- Modelled from the spec (claim C7): "the best trial voltage found
across the rounds" — a trial whose averaged current has the smallest
magnitude. -/
def bestRound : List RoundInfo → Option RoundInfo
  | [] => none
  | r :: rs =>
    match bestRound rs with
    | none => some r
    | some b => if |r.avg.getD 0| ≤ |b.avg.getD 0| then some r else some b

/-- Modelled from the spec (claim C7): the best trial voltage. -/
def bestTrial (rs : List RoundInfo) : Option ℚ :=
  (bestRound rs).map RoundInfo.trial

end Pipette

/-- C10: if the cancellation predicate is true at the check that follows
the initial 0 V baseline hold (`pipette_offset_2022_0.py` lines 55-56),
`pipette_offset` returns an offset of exactly 0 V, with no bisection
round performed — whatever baseline current the device produced. -/
theorem pipette_offset_abort_baseline (e : Run.Env) (hold wait threshold maxOff : ℚ)
    (iterations : ℕ) (tag : Option ℚ) (fuel : ℕ) (s0 : Run.St)
    (hb : e.stop (Pipette.poBaseline e hold wait tag fuel s0).1.ab = true) :
    (Pipette.pipette_offset e hold wait threshold maxOff iterations tag fuel s0).result = 0
      ∧ (Pipette.pipette_offset e hold wait threshold maxOff iterations tag fuel
          s0).rounds = []
      ∧ (Pipette.pipette_offset e hold wait threshold maxOff iterations tag fuel
          s0).tag = .abortedBaseline := by
  rw [Pipette.pipette_offset]
  rcases hbase : Pipette.poBaseline e hold wait tag fuel s0 with ⟨s3, arr, recs0⟩
  rw [hbase] at hb
  try dsimp only
  dsimp only at hb
  simp only [Run.checkStop]
  rw [if_pos hb]
  exact ⟨rfl, rfl, rfl⟩

/-- C10 witness: the theorem applied in an environment whose cancellation
predicate is constantly true. -/
theorem pipette_offset_abort_baseline_witness :
    (Pipette.pipette_offset envC3 3 1 (1 / 1000) (1 / 4) 15 none 2 ⟨0, 0, 0, [], 0⟩).result
        = 0
      ∧ (Pipette.pipette_offset envC3 3 1 (1 / 1000) (1 / 4) 15 none 2
          ⟨0, 0, 0, [], 0⟩).rounds = []
      ∧ (Pipette.pipette_offset envC3 3 1 (1 / 1000) (1 / 4) 15 none 2
          ⟨0, 0, 0, [], 0⟩).tag = .abortedBaseline :=
  pipette_offset_abort_baseline envC3 3 1 (1 / 1000) (1 / 4) 15 none 2 ⟨0, 0, 0, [], 0⟩ rfl

/-- Environment of the C7 counterexample: clock readings 0, 2, 4, 5, 7,
9, …, a device with `I(V) = V - 1/100`, cancellation never firing. -/
def envC7 : Run.Env :=
  ⟨fun k => [0, 2, 4, 5, 7, 9].getD k 100, fun v _ => v - 1 / 100, fun _ => false⟩

set_option maxHeartbeats 1000000 in
/-- C7 counterexample: one-iteration search, baseline current -1/100 at
0 V (above the 1/1000 threshold), so the single round trials +1/8 V and
measures 23/200 A — still above threshold.  The search exhausts and
returns 1/16 V: the last trial voltage adjusted once more, a voltage
never trialled — not the best (indeed only) trial voltage 1/8 found
across the rounds. -/
theorem pipette_offset_best_claim_counterexample :
    (Pipette.pipette_offset envC7 3 1 (1 / 1000) (1 / 4) 1 none 3
        ⟨0, 0, 0, [], 0⟩).tag = .exhausted
      ∧ (Pipette.pipette_offset envC7 3 1 (1 / 1000) (1 / 4) 1 none 3
          ⟨0, 0, 0, [], 0⟩).result = 1 / 16
      ∧ Pipette.bestTrial (Pipette.pipette_offset envC7 3 1 (1 / 1000) (1 / 4) 1 none 3
          ⟨0, 0, 0, [], 0⟩).rounds = some (1 / 8)
      ∧ (1 / 16 : ℚ) ≠ 1 / 8 := by
  have ht : ∀ k, envC7.ticks k = [0, 2, 4, 5, 7, 9].getD k 100 := fun _ => rfl
  have hd : ∀ v k, envC7.dev v k = v - 1 / 100 := fun _ _ => rfl
  have hs : ∀ k, envC7.stop k = false := fun _ => rfl
  have hHold1 : Pipette.holdLoop envC7 1 3 none 3 ⟨1, 0, 0, [0], 0⟩ =
      (⟨3, 4, 2, [0], 0⟩, [-(1 / 100), -(1 / 100)],
        [⟨2, 0, -(1 / 100), none⟩, ⟨4, 0, -(1 / 100), none⟩]) := by
    norm_num [Pipette.holdLoop, Run.checkStop, Run.timerCheck, Run.perf,
      Run.readCurrent, ht, hd, hs]
  have hHold2 : Pipette.holdLoop envC7 1 3 none 3 ⟨4, 4, 4, [0, 5], 1 / 8⟩ =
      (⟨6, 8, 6, [0, 5], 1 / 8⟩, [23 / 200, 23 / 200],
        [⟨7, 0, 23 / 200, none⟩, ⟨9, 0, 23 / 200, none⟩]) := by
    norm_num [Pipette.holdLoop, Run.checkStop, Run.timerCheck, Run.perf,
      Run.readCurrent, ht, hd, hs]
  have hBase : Pipette.poBaseline envC7 3 1 none 3 ⟨0, 0, 0, [], 0⟩ =
      (⟨3, 4, 2, [0], 0⟩, [-(1 / 100), -(1 / 100)],
        [⟨2, 0, -(1 / 100), none⟩, ⟨4, 0, -(1 / 100), none⟩]) := by
    rw [Pipette.poBaseline]
    norm_num [Run.running, Run.timerStart, Run.perf, ht, hHold1]
  have hmean2 : Run.mean [(23 : ℚ) / 200, 23 / 200] = some (23 / 200) := by
    rw [Run.mean, if_neg (by simp)]
    norm_num
  have hmean1 : Run.mean [-(1 / 100 : ℚ), -(1 / 100)] = some (-(1 / 100)) := by
    rw [Run.mean, if_neg (by simp)]
    norm_num
  have habs2 : |(23 : ℚ) / 200| = 23 / 200 := abs_of_pos (by norm_num)
  have habs1 : |(-(1 / 100) : ℚ)| = 1 / 100 := by
    rw [abs_neg]
    exact abs_of_pos (by norm_num)
  have hRounds : Pipette.poRounds envC7 3 1 (1 / 1000) (1 / 4) none 3 [0] (1 / 8)
      ⟨3, 4, 3, [0], 0⟩ =
      ⟨⟨6, 8, 6, [0, 5], 1 / 8⟩, [⟨1 / 8, some (23 / 200)⟩],
        [⟨7, 0, 23 / 200, none⟩, ⟨9, 0, 23 / 200, none⟩], 1 / 16, .exhausted⟩ := by
    norm_num [Pipette.poRounds, Run.checkStop, Run.timerLap, Run.perf, hmean2, habs2,
      Pipette.avgWithin, Pipette.avgGtZero, Pipette.adjustVoltage, Pipette.adjustStep,
      ht, hs, hHold2]
  have hRun : Pipette.pipette_offset envC7 3 1 (1 / 1000) (1 / 4) 1 none 3
      ⟨0, 0, 0, [], 0⟩ =
      ⟨⟨6, 8, 6, [0, 5], 1 / 8⟩, [⟨1 / 8, some (23 / 200)⟩],
        [⟨2, 0, -(1 / 100), none⟩, ⟨4, 0, -(1 / 100), none⟩,
          ⟨7, 0, 23 / 200, none⟩, ⟨9, 0, 23 / 200, none⟩], 1 / 16, .exhausted⟩ := by
    rw [Pipette.pipette_offset]
    norm_num [hBase, Run.checkStop, hmean1, habs1, Pipette.avgWithin, Pipette.avgGtZero,
      ht, hs, List.range_succ, hRounds]
  rw [hRun]
  refine ⟨rfl, rfl, ?_, by norm_num⟩
  norm_num [Pipette.bestTrial, Pipette.bestRound]

/-- Helper for C7: when the bisection rounds exhaust their index list
without converging, one round was completed per index, and the returned
voltage is the last round's trial voltage as adjusted after that
round. -/
theorem poRounds_exhausted (e : Run.Env) (hold wait threshold maxOff : ℚ)
    (tag : Option ℚ) (fuel : ℕ) (idxs : List ℕ) (v : ℚ) (s : Run.St)
    (hx : (Pipette.poRounds e hold wait threshold maxOff tag fuel idxs v s).tag
      = .exhausted) :
    (Pipette.poRounds e hold wait threshold maxOff tag fuel idxs v s).rounds.length
        = idxs.length
      ∧ (idxs = [] →
          (Pipette.poRounds e hold wait threshold maxOff tag fuel idxs v s).result = v)
      ∧ ∀ i r, idxs.getLast? = some i →
          (Pipette.poRounds e hold wait threshold maxOff tag fuel idxs v
            s).rounds.getLast? = some r →
          (Pipette.poRounds e hold wait threshold maxOff tag fuel idxs v s).result
            = Pipette.adjustVoltage r.trial r.avg maxOff i := by
  induction idxs generalizing v s with
  | nil =>
    refine ⟨rfl, fun _ => rfl, ?_⟩
    intro i r _ hLast
    simp [Pipette.poRounds] at hLast
  | cons i rest ih =>
    rw [Pipette.poRounds] at hx ⊢
    simp only [Run.checkStop] at hx ⊢
    by_cases hb : e.stop s.ab = true
    · rw [if_pos hb] at hx
      exact absurd hx (by simp)
    · rw [if_neg hb] at hx ⊢
      rcases hhl : Pipette.holdLoop e wait hold tag fuel
          ⟨s.tick + 1, s.rd, s.ab + 1, s.laps ++ [e.ticks s.tick], v⟩ with ⟨s4, arr, recs⟩
      rw [Run.timerLap] at hx ⊢
      simp only [Run.perf] at hx ⊢
      rw [hhl] at hx ⊢
      try dsimp only at hx ⊢
      by_cases hw : Pipette.avgWithin threshold (Run.mean arr) = true
      · rw [if_pos hw] at hx
        exact absurd hx (by simp)
      · rw [if_neg hw] at hx ⊢
        try dsimp only at hx ⊢
        obtain ⟨ihLen, ihNil, ihLast⟩ :=
          ih (Pipette.adjustVoltage v (Run.mean arr) maxOff i) s4 hx
        refine ⟨by simp [ihLen], by simp, ?_⟩
        intro i' r' hIdx hLast
        cases hrest : rest with
        | nil =>
          subst hrest
          simp only [List.getLast?_singleton, Option.some.injEq] at hIdx
          subst hIdx
          simp only [Pipette.poRounds, List.getLast?_singleton, Option.some.injEq] at hLast ⊢
          subst hLast
          rfl
        | cons j rest' =>
          subst hrest
          rw [List.getLast?_cons_cons] at hIdx
          have hne : (Pipette.poRounds e hold wait threshold maxOff tag fuel (j :: rest')
              (Pipette.adjustVoltage v (Run.mean arr) maxOff i) s4).rounds ≠ [] := by
            intro hnil
            rw [hnil] at ihLen
            simp at ihLen
          cases hr : (Pipette.poRounds e hold wait threshold maxOff tag fuel (j :: rest')
              (Pipette.adjustVoltage v (Run.mean arr) maxOff i) s4).rounds with
          | nil => exact absurd hr hne
          | cons q qs =>
            rw [hr, List.getLast?_cons_cons] at hLast
            have := ihLast i' r' hIdx (by rw [hr]; exact hLast)
            exact this

/-- C7 (amended): exhausting the configured number of iterations without
the post-settling averaged current coming within threshold is not an
error — `pipette_offset` returns normally, having completed one round
per configured iteration, and the returned voltage is the final round's
trial voltage as adjusted once more after that round (by
`±max_offset/2**(iterations+1)`), which need not be the best trial
voltage found across the rounds (the closing log call is `log.info`, not
a warning). -/
theorem pipette_offset_exhausted_returns_last_adjusted (e : Run.Env)
    (hold wait threshold maxOff : ℚ) (iterations : ℕ) (tag : Option ℚ) (fuel : ℕ)
    (s0 : Run.St)
    (hx : (Pipette.pipette_offset e hold wait threshold maxOff iterations tag fuel
      s0).tag = .exhausted) (hn : 0 < iterations) :
    (Pipette.pipette_offset e hold wait threshold maxOff iterations tag fuel
        s0).rounds.length = iterations
      ∧ ∃ r, (Pipette.pipette_offset e hold wait threshold maxOff iterations tag fuel
          s0).rounds.getLast? = some r ∧
        (Pipette.pipette_offset e hold wait threshold maxOff iterations tag fuel
          s0).result = Pipette.adjustVoltage r.trial r.avg maxOff (iterations - 1) := by
  rw [Pipette.pipette_offset] at hx ⊢
  rcases hbase : Pipette.poBaseline e hold wait tag fuel s0 with ⟨s3, arr, recs0⟩
  try rw [hbase] at hx
  try dsimp only at hx ⊢
  simp only [Run.checkStop] at hx ⊢
  by_cases hb : e.stop s3.ab = true
  · rw [if_pos hb] at hx
    exact absurd hx (by simp)
  · rw [if_neg hb] at hx ⊢
    by_cases hw : Pipette.avgWithin threshold (Run.mean arr) = true
    · rw [if_pos hw] at hx
      exact absurd hx (by simp)
    · rw [if_neg hw] at hx ⊢
      try dsimp only at hx ⊢
      obtain ⟨ihLen, _, ihLast⟩ := poRounds_exhausted e hold wait threshold maxOff tag
        fuel (List.range iterations)
        (if Pipette.avgGtZero (Run.mean arr) = true then -maxOff / 2 else maxOff / 2)
        ⟨s3.tick, s3.rd, s3.ab + 1, s3.laps, s3.sv⟩ hx
      rw [List.length_range] at ihLen
      refine ⟨ihLen, ?_⟩
      obtain ⟨m, rfl⟩ : ∃ m, iterations = m + 1 :=
        ⟨iterations - 1, (Nat.succ_pred_eq_of_pos hn).symm⟩
      have hIdx : (List.range (m + 1)).getLast? = some m := by
        rw [List.range_succ]
        exact List.getLast?_concat _
      have hne : (Pipette.poRounds e hold wait threshold maxOff tag fuel
          (List.range (m + 1))
          (if Pipette.avgGtZero (Run.mean arr) = true then -maxOff / 2 else maxOff / 2)
          ⟨s3.tick, s3.rd, s3.ab + 1, s3.laps, s3.sv⟩).rounds ≠ [] := by
        intro hnil
        rw [hnil] at ihLen
        simp at ihLen
      obtain ⟨r, hr⟩ := Option.isSome_iff_exists.mp (List.getLast?_isSome.mpr hne)
      refine ⟨r, hr, ?_⟩
      have := ihLast m r hIdx hr
      simpa using this

/-- Environment of the C7 witness: clock readings 0, 10, 20, 30, …, a
device reading its own applied voltage, cancellation never firing. -/
def envW7 : Run.Env :=
  ⟨fun k => [0, 10, 20, 30].getD k 100, fun v _ => v, fun _ => false⟩

set_option maxHeartbeats 1000000 in
/-- C7 witness: the amended theorem applied to a one-iteration search
(threshold -1, so no average can converge). -/
theorem pipette_offset_exhausted_witness :
    (Pipette.pipette_offset envW7 3 1 (-1) (1 / 4) 1 none 1
        ⟨0, 0, 0, [], 0⟩).rounds.length = 1
      ∧ ∃ r, (Pipette.pipette_offset envW7 3 1 (-1) (1 / 4) 1 none 1
          ⟨0, 0, 0, [], 0⟩).rounds.getLast? = some r ∧
        (Pipette.pipette_offset envW7 3 1 (-1) (1 / 4) 1 none 1
          ⟨0, 0, 0, [], 0⟩).result = Pipette.adjustVoltage r.trial r.avg (1 / 4) (1 - 1) := by
  have hx : (Pipette.pipette_offset envW7 3 1 (-1) (1 / 4) 1 none 1
      ⟨0, 0, 0, [], 0⟩).tag = .exhausted := by
    have habs : |(1 : ℚ) / 8| = 1 / 8 := abs_of_pos (by norm_num)
    norm_num [habs, Pipette.pipette_offset, Pipette.poBaseline, Pipette.poRounds,
      Pipette.holdLoop, Pipette.avgWithin, Pipette.avgGtZero, Pipette.adjustVoltage,
      Pipette.adjustStep, Run.running, Run.timerStart, Run.timerLap, Run.timerCheck,
      Run.perf, Run.readCurrent, Run.checkStop, Run.mean, List.range_succ, envW7]
  exact pipette_offset_exhausted_returns_last_adjusted envW7 3 1 (-1) (1 / 4) 1 none 1
    ⟨0, 0, 0, [], 0⟩ hx (by norm_num)

/-- C9: for the sustained sink, `record(voltage=5)` followed by
`record(current=1e-9)` emits a second row with `voltage = 5` carried
forward and `current = 1e-9` fresh; the transient sink's second row has
its voltage unset. -/
theorem sustained_sink_carries_fields :
    (((Emitter.SustainedState.init.record { voltage := some 5 }).1.record
        { current := some (1 / 1000000000) }).2.voltage = some 5
      ∧ ((Emitter.SustainedState.init.record { voltage := some 5 }).1.record
        { current := some (1 / 1000000000) }).2.current = some (1 / 1000000000))
    ∧ (Emitter.record { current := some (1 / 1000000000) }).voltage = none :=
  ⟨⟨rfl, rfl⟩, rfl⟩
